import Mathlib

/-!
Verification development for the diffloupe diff-decomposition core.

The TypeScript sources are shallowly embedded: strings are modelled as
`List Char` (JS strings are sequences of code units; all inputs relevant
here are plain text), JS `number` values that the code treats as integers
are `Nat`/`Int`, the fractional `priority` field coming back from the
external analyzer is `ℚ`, fallible code returns `Except`/`Option`, and
the external LLM analyzer is an explicit function argument (the spec
treats it as an opaque function).
-/

deriving instance DecidableEq for Except

namespace DL

/-- Convert a Lean string literal to the `List Char` representation used
throughout the embedding. -/
def str (s : String) : List Char := s.data

-- ============================================================================
-- Data model (src/types/diff.ts, src/types/loader.ts)
-- ============================================================================

/-- `DiffLineType` from src/types/diff.ts. -/
inductive DiffLineType where
  | context
  | add
  | delete
deriving DecidableEq

/-- `DiffLine` from src/types/diff.ts: one physical line inside a hunk. -/
structure DiffLine where
  type : DiffLineType
  content : List Char
  oldLineNumber : Option Nat
  newLineNumber : Option Nat
deriving DecidableEq

/-- `DiffHunk` from src/types/diff.ts. -/
structure DiffHunk where
  oldStart : Nat
  oldLines : Nat
  newStart : Nat
  newLines : Nat
  header : List Char
  lines : List DiffLine
deriving DecidableEq

/-- `DiffFileStatus` from src/types/diff.ts. -/
inductive DiffFileStatus where
  | added
  | modified
  | deleted
  | renamed
deriving DecidableEq

/-- `DiffFile` from src/types/diff.ts. -/
structure DiffFile where
  path : List Char
  oldPath : Option (List Char) := none
  status : DiffFileStatus
  hunks : List DiffHunk
  isBinary : Bool
deriving DecidableEq

/-- `ParsedDiff` from src/types/diff.ts. -/
structure ParsedDiff where
  files : List DiffFile
deriving DecidableEq

/-- `ClassifiedFile` from src/types/loader.ts (`tier` is `1 | 2 | 3` in the
source; we carry it as a `Nat`). -/
structure ClassifiedFile where
  file : DiffFile
  tier : Nat
  reason : List Char
  estimatedTokens : Nat
deriving DecidableEq

/-- `LoadBudgetResult` from src/types/loader.ts. -/
structure LoadBudgetResult where
  included : List ClassifiedFile
  excluded : List ClassifiedFile
  totalTokens : Nat
deriving DecidableEq

-- ============================================================================
-- Generic string helpers used by the parser embedding
-- ============================================================================

/-- `p <+: l` check followed by removal of the matched prefix; models
anchored literal matching in the JS regexes and `String.startsWith` +
`slice` pairs. -/
def stripPre (p l : List Char) : Option (List Char) :=
  if p <+: l then some (l.drop p.length) else none

/-- Maximal run of decimal digits at the front (the greedy `\d+`). -/
def spanDigits (l : List Char) : List Char × List Char :=
  (l.takeWhile (·.isDigit), l.dropWhile (·.isDigit))

/-- Value of a string of decimal digits, as computed by `parseInt(s, 10)`. -/
def digitsToNat (ds : List Char) : Nat :=
  ds.foldl (fun n c => n * 10 + (c.toNat - 48)) 0

/-- Split at the first occurrence of `sep` (as an infix); `none` when `sep`
does not occur.  Models one step of JS `String.prototype.split`. -/
def splitFirst (sep l : List Char) : Option (List Char × List Char) :=
  match l with
  | [] => none
  | c :: rest =>
    if sep <+: l then some ([], l.drop sep.length)
    else
      match splitFirst sep rest with
      | none => none
      | some (p, q) => some (c :: p, q)

/-- Split at the last occurrence of `sep` that leaves a nonempty remainder.
This is the greedy backtracking behaviour of `(.+) b\/(.+)$`: the first
`.+` grabs as much as possible, and the second `.+` forces the part after
the separator to be nonempty. -/
def splitLast (sep l : List Char) : Option (List Char × List Char) :=
  match l with
  | [] => none
  | c :: rest =>
    match splitLast sep rest with
    | some (p, q) => some (c :: p, q)
    | none =>
      if sep <+: l ∧ l.drop sep.length ≠ [] then some ([], l.drop sep.length)
      else none

/-- The first two elements produced by JS `l.split(sep)`: `parts[0]` and,
when the separator occurs at all, `parts[1]` (the text between the first
and second occurrences, or everything after the first occurrence when it
is the only one). -/
def jsSplitParts (sep l : List Char) : List Char × Option (List Char) :=
  match splitFirst sep l with
  | none => (l, none)
  | some (p0, r) =>
    (p0, some (match splitFirst sep r with
               | none => r
               | some (p1, _) => p1))

/-- Split a character list at newline characters, exactly as
`rawDiff.split("\n")` does (a trailing newline yields a final empty
line). -/
def splitLines : List Char → List (List Char)
  | [] => [[]]
  | c :: rest =>
    if c = '\n' then [] :: splitLines rest
    else
      match splitLines rest with
      | [] => [[c]]
      | l :: ls => (c :: l) :: ls

-- ============================================================================
-- Diff parser (src/services/diff-parser.ts)
-- ============================================================================

/-- `parseGitDiffLine` (diff-parser.ts:155): extract `path`/`oldPath` from a
`diff --git a/old b/new` line.  Primary: the anchored greedy regex
`^diff --git a\/(.+) b\/(.+)$`.  Fallback: `slice(11)` then
`split(" b/")` with JS truthiness checks on the two parts.  Last resort:
the raw remainder becomes `path` with no `oldPath`. -/
def parseGitDiffLine (line : List Char) : List Char × Option (List Char) :=
  let primary : Option (List Char × Option (List Char)) :=
    match stripPre (str "diff --git a/") line with
    | none => none
    | some x =>
      match splitLast (str " b/") x with
      | none => none
      | some (oldP, newP) =>
        if oldP ≠ [] then
          some (newP, if oldP ≠ newP then some oldP else none)
        else none
  match primary with
  | some r => r
  | none =>
    let content := line.drop 11
    match jsSplitParts (str " b/") content with
    | (firstPart, some secondPart) =>
      if firstPart ≠ [] ∧ secondPart ≠ [] then
        let extractedOldPath :=
          if str "a/" <+: firstPart then firstPart.drop 2 else firstPart
        (secondPart,
         if extractedOldPath ≠ secondPart then some extractedOldPath else none)
      else (content, none)
    | (_, none) => (content, none)

/-- The hunk-header regex `^@@ -(\d+)(?:,(\d+))? \+(\d+)(?:,(\d+))? @@`
(diff-parser.ts:204).  Returns `(oldStart, oldLines, newStart, newLines)`
with the omitted counts defaulting to 1, or `none` when the line does not
match. -/
def parseHunkHeader (line : List Char) : Option (Nat × Nat × Nat × Nat) :=
  match stripPre (str "@@ -") line with
  | none => none
  | some r0 =>
    let s1 := spanDigits r0
    if s1.1 = [] then none
    else
      let step : List Char → Option (Option Nat × List Char) := fun r =>
        match r with
        | ',' :: r2 =>
          let s2 := spanDigits r2
          if s2.1 = [] then none else some (some (digitsToNat s2.1), s2.2)
        | _ => some (none, r)
      match step s1.2 with
      | none => none
      | some (oc, r3) =>
        match stripPre (str " +") r3 with
        | none => none
        | some r4 =>
          let s3 := spanDigits r4
          if s3.1 = [] then none
          else
            match step s3.2 with
            | none => none
            | some (nc, r6) =>
              match stripPre (str " @@") r6 with
              | none => none
              | some _ =>
                some (digitsToNat s1.1, oc.getD 1, digitsToNat s3.1, nc.getD 1)

/-- The hunk-body loop of `parseHunk` (diff-parser.ts:233-308): consume lines
while maintaining the two running counters; returns the constructed
`DiffLine`s and the unconsumed remainder of the input. -/
def parseHunkLines : List (List Char) → Nat → Nat → List DiffLine × List (List Char)
  | [], _, _ => ([], [])
  | l :: rest, curOld, curNew =>
    if str "diff --git " <+: l ∨ str "@@" <+: l then ([], l :: rest)
    else if str "\\" <+: l then parseHunkLines rest curOld curNew
    else if l = [] ∧ rest = [] then ([], l :: rest)
    else
      match l with
      | [] =>
        let r := parseHunkLines rest (curOld + 1) (curNew + 1)
        (⟨.context, [], some curOld, some curNew⟩ :: r.1, r.2)
      | c :: cs =>
        if c = '+' then
          let r := parseHunkLines rest curOld (curNew + 1)
          (⟨.add, cs, none, some curNew⟩ :: r.1, r.2)
        else if c = '-' then
          let r := parseHunkLines rest (curOld + 1) curNew
          (⟨.delete, cs, some curOld, none⟩ :: r.1, r.2)
        else if c = ' ' then
          let r := parseHunkLines rest (curOld + 1) (curNew + 1)
          (⟨.context, cs, some curOld, some curNew⟩ :: r.1, r.2)
        else if str "index " <+: l ∨ str "--- " <+: l ∨ str "+++ " <+: l ∨
                str "new file" <+: l ∨ str "deleted file" <+: l then
          ([], l :: rest)
        else
          let r := parseHunkLines rest (curOld + 1) (curNew + 1)
          (⟨.context, cs, some curOld, some curNew⟩ :: r.1, r.2)

/-- `parseHunk` (diff-parser.ts:194): parse the `@@` header line (raising on a
mismatch — `throw new Error("Invalid hunk header: ...")`) and then the
hunk body. -/
def parseHunkFull (headerLine : List Char) (body : List (List Char)) :
    Except (List Char) (DiffHunk × List (List Char)) :=
  match parseHunkHeader headerLine with
  | none => .error (str "Invalid hunk header: " ++ headerLine)
  | some (oldStart, oldLines, newStart, newLines) =>
    let r := parseHunkLines body oldStart newStart
    .ok ({ oldStart := oldStart, oldLines := oldLines, newStart := newStart,
           newLines := newLines, header := headerLine, lines := r.1 }, r.2)

/-- The binary-content skip inside `parseFile` (diff-parser.ts:105-111):
advance to the next `diff --git` line. -/
def skipToNextFile : List (List Char) → List (List Char)
  | [] => []
  | l :: rest => if str "diff --git " <+: l then l :: rest else skipToNextFile rest

theorem parseHunkLines_rest_le (ls : List (List Char)) (o n : Nat) :
    (parseHunkLines ls o n).2.length ≤ ls.length := by
  induction ls, o, n using parseHunkLines.induct <;>
    (simp_all [parseHunkLines]; try omega)

theorem parseHunkFull_rest_le (hl : List Char) (body : List (List Char))
    (hk : DiffHunk) (r : List (List Char)) (h : parseHunkFull hl body = .ok (hk, r)) :
    r.length ≤ body.length := by
  unfold parseHunkFull at h
  cases hh : parseHunkHeader hl with
  | none => rw [hh] at h; exact absurd h (by simp)
  | some v =>
    obtain ⟨a, b, c, d⟩ := v
    rw [hh] at h
    simp only [Except.ok.injEq, Prod.mk.injEq] at h
    rw [← h.2]
    exact parseHunkLines_rest_le body a c

theorem skipToNextFile_le (ls : List (List Char)) :
    (skipToNextFile ls).length ≤ ls.length := by
  induction ls with
  | nil => simp [skipToNextFile]
  | cons l rest ih =>
    rw [skipToNextFile]
    split <;> simp <;> omega

/-- The header-processing loop of `parseFile` (diff-parser.ts:60-125),
carrying the mutable `status` / `oldPath` / `isBinary` as arguments and
returning the collected hunks plus the unconsumed remainder. -/
def parseFileBody (ls : List (List Char)) (status : DiffFileStatus)
    (oldPath : Option (List Char)) (isBinary : Bool) :
    Except (List Char)
      (DiffFileStatus × Option (List Char) × Bool × List DiffHunk × List (List Char)) :=
  match ls with
  | [] => .ok (status, oldPath, isBinary, [], [])
  | l :: rest =>
    if l = [] ∨ str "diff --git " <+: l then .ok (status, oldPath, isBinary, [], l :: rest)
    else if str "new file mode" <+: l then parseFileBody rest .added oldPath isBinary
    else if str "deleted file mode" <+: l then parseFileBody rest .deleted oldPath isBinary
    else if str "rename from " <+: l then parseFileBody rest .renamed (some (l.drop 12)) isBinary
    else if str "rename to " <+: l then parseFileBody rest status oldPath isBinary
    else if str "similarity index " <+: l then parseFileBody rest status oldPath isBinary
    else if str "Binary files " <+: l ∨ l = str "GIT binary patch" then
      .ok (status, oldPath, true, [], skipToNextFile rest)
    else if str "@@" <+: l then
      match hh : parseHunkFull l rest with
      | .error e => .error e
      | .ok (hunk, rest2) =>
        match parseFileBody rest2 status oldPath isBinary with
        | .error e => .error e
        | .ok (st2, op2, bin2, hunks, r) => .ok (st2, op2, bin2, hunk :: hunks, r)
    else parseFileBody rest status oldPath isBinary
termination_by ls.length
decreasing_by
  all_goals simp
  all_goals
    first
    | omega
    | exact Nat.lt_succ_of_le (parseHunkFull_rest_le _ _ hunk rest2 hh)

/-- `parseFile` (diff-parser.ts:40-150): parse the `diff --git` line, run the
header loop, and apply the fallback rename detection (`!oldPath &&
gitOldPath && gitOldPath !== path`, with JS truthiness on the strings). -/
def parseFile (diffLine : List Char) (rest : List (List Char)) :
    Except (List Char) (DiffFile × List (List Char)) :=
  let pg := parseGitDiffLine diffLine
  match parseFileBody rest .modified none false with
  | .error e => .error e
  | .ok (status, oldPath, isBinary, hunks, r) =>
    let final : Option (List Char) × DiffFileStatus :=
      if oldPath = none ∨ oldPath = some [] then
        match pg.2 with
        | some gitOldPath =>
          if gitOldPath ≠ [] ∧ gitOldPath ≠ pg.1 then
            (some gitOldPath, if status = .modified then .renamed else status)
          else (oldPath, status)
        | none => (oldPath, status)
      else (oldPath, status)
    .ok ({ path := pg.1, oldPath := final.1, status := final.2,
           isBinary := isBinary, hunks := hunks }, r)

theorem parseFileBody_rest_le (ls : List (List Char)) (st : DiffFileStatus)
    (op : Option (List Char)) (bin : Bool) :
    ∀ st2 op2 bin2 hunks r, parseFileBody ls st op bin = .ok (st2, op2, bin2, hunks, r) →
      r.length ≤ ls.length := by
  induction ls, st, op, bin using parseFileBody.induct with
  | case1 st op bin =>
    intro st2 op2 bin2 hunks r h
    rw [parseFileBody] at h
    simp only [Except.ok.injEq, Prod.mk.injEq] at h
    simp [← h.2.2.2.2]
  | case2 st op bin l ls hc =>
    intro st2 op2 bin2 hunks r h
    rw [parseFileBody, if_pos hc] at h
    simp only [Except.ok.injEq, Prod.mk.injEq] at h
    simp [← h.2.2.2.2]
  | case3 st op bin l ls h1 h2 ih =>
    intro st2 op2 bin2 hunks r h
    rw [parseFileBody, if_neg h1, if_pos h2] at h
    exact le_trans (ih st2 op2 bin2 hunks r h) (by simp)
  | case4 st op bin l ls h1 h2 h3 ih =>
    intro st2 op2 bin2 hunks r h
    rw [parseFileBody, if_neg h1, if_neg h2, if_pos h3] at h
    exact le_trans (ih st2 op2 bin2 hunks r h) (by simp)
  | case5 st op bin l ls h1 h2 h3 h4 ih =>
    intro st2 op2 bin2 hunks r h
    rw [parseFileBody, if_neg h1, if_neg h2, if_neg h3, if_pos h4] at h
    exact le_trans (ih st2 op2 bin2 hunks r h) (by simp)
  | case6 st op bin l ls h1 h2 h3 h4 h5 ih =>
    intro st2 op2 bin2 hunks r h
    rw [parseFileBody, if_neg h1, if_neg h2, if_neg h3, if_neg h4, if_pos h5] at h
    exact le_trans (ih st2 op2 bin2 hunks r h) (by simp)
  | case7 st op bin l ls h1 h2 h3 h4 h5 h6 ih =>
    intro st2 op2 bin2 hunks r h
    rw [parseFileBody, if_neg h1, if_neg h2, if_neg h3, if_neg h4, if_neg h5,
        if_pos h6] at h
    exact le_trans (ih st2 op2 bin2 hunks r h) (by simp)
  | case8 st op bin l ls h1 h2 h3 h4 h5 h6 h7 =>
    intro st2 op2 bin2 hunks r h
    rw [parseFileBody, if_neg h1, if_neg h2, if_neg h3, if_neg h4, if_neg h5,
        if_neg h6, if_pos h7] at h
    simp only [Except.ok.injEq, Prod.mk.injEq] at h
    have := skipToNextFile_le ls
    rw [← h.2.2.2.2]
    simp
    omega
  | case9 st op bin l ls h1 h2 h3 h4 h5 h6 h7 h8 e heq =>
    intro st2 op2 bin2 hunks r h
    rw [parseFileBody, if_neg h1, if_neg h2, if_neg h3, if_neg h4, if_neg h5,
        if_neg h6, if_neg h7, if_pos h8, heq] at h
    exact absurd h (by simp)
  | case10 st op bin l ls h1 h2 h3 h4 h5 h6 h7 h8 hunk rest2 heq e herr ih =>
    intro st2 op2 bin2 hunks r h
    rw [parseFileBody, if_neg h1, if_neg h2, if_neg h3, if_neg h4, if_neg h5,
        if_neg h6, if_neg h7, if_pos h8, heq] at h
    dsimp only at h
    rw [herr] at h
    exact absurd h (by simp)
  | case11 st op bin l ls h1 h2 h3 h4 h5 h6 h7 h8 hunk rest2 heq st3 op3 bin3 hunks3 r3 hok ih =>
    intro st2 op2 bin2 hunks r h
    rw [parseFileBody, if_neg h1, if_neg h2, if_neg h3, if_neg h4, if_neg h5,
        if_neg h6, if_neg h7, if_pos h8, heq] at h
    dsimp only at h
    rw [hok] at h
    simp only [Except.ok.injEq, Prod.mk.injEq] at h
    have hle := ih st3 op3 bin3 hunks3 r3 hok
    have hfull := parseHunkFull_rest_le l ls hunk rest2 heq
    rw [← h.2.2.2.2]
    simp
    omega
  | case12 st op bin l ls h1 h2 h3 h4 h5 h6 h7 h8 ih =>
    intro st2 op2 bin2 hunks r h
    rw [parseFileBody, if_neg h1, if_neg h2, if_neg h3, if_neg h4, if_neg h5,
        if_neg h6, if_neg h7, if_neg h8] at h
    exact le_trans (ih st2 op2 bin2 hunks r h) (by simp)

theorem parseFile_rest_le (dl : List Char) (rest : List (List Char))
    (f : DiffFile) (r : List (List Char)) (h : parseFile dl rest = .ok (f, r)) :
    r.length ≤ rest.length := by
  unfold parseFile at h
  cases hb : parseFileBody rest .modified none false with
  | error e => rw [hb] at h; exact absurd h (by simp)
  | ok v =>
    obtain ⟨st, op, bin, hunks, r2⟩ := v
    rw [hb] at h
    simp only [Except.ok.injEq, Prod.mk.injEq] at h
    have := parseFileBody_rest_le rest .modified none false st op bin hunks r2 hb
    rw [← h.2]
    exact this

/-- The top-level scan of `parseDiff` (diff-parser.ts:21-32): find each
`diff --git` line and parse a file record from it. -/
def parseDiffLoop (ls : List (List Char)) : Except (List Char) (List DiffFile) :=
  match ls with
  | [] => .ok []
  | l :: rest =>
    if str "diff --git " <+: l then
      match hf : parseFile l rest with
      | .error e => .error e
      | .ok (file, r) =>
        match parseDiffLoop r with
        | .error e => .error e
        | .ok files => .ok (file :: files)
    else parseDiffLoop rest
termination_by ls.length
decreasing_by
  all_goals simp
  all_goals
    first
    | omega
    | exact Nat.lt_succ_of_le (parseFile_rest_le _ _ file r hf)

/-- `parseDiff` (diff-parser.ts:13): empty / whitespace-only input yields an
empty file list; otherwise split into lines and scan. -/
def parseDiff (raw : List Char) : Except (List Char) ParsedDiff :=
  if raw.all (·.isWhitespace) then .ok ⟨[]⟩
  else
    match parseDiffLoop (splitLines raw) with
    | .error e => .error e
    | .ok files => .ok ⟨files⟩

-- ============================================================================
-- Token estimation (src/utils/token-estimate.ts, src/services/diff-loader.ts)
-- ============================================================================

/-- Decimal representation of a `Nat`, for the template-literal strings. -/
def natToChars (n : Nat) : List Char := (Nat.repr n).data

/-- `estimateTokens` from src/utils/token-estimate.ts:24: the shared char/4
heuristic `Math.ceil(text.length / 4)` (`(n + 3) / 4` is ceiling division
on `Nat`). -/
def estimateTokensText (text : List Char) : Nat := (text.length + 3) / 4

/-- `estimateTokens` from src/services/diff-loader.ts:203: accumulate each
hunk header's length plus, for every line, its content length plus 2 (the
prefix character and the newline), then apply `Math.ceil(totalChars / 4)`. -/
def estimateTokens (hunks : List DiffHunk) : Nat :=
  let totalChars := hunks.foldl
    (fun acc hunk =>
      hunk.lines.foldl (fun acc2 line => acc2 + line.content.length + 2)
        (acc + hunk.header.length))
    0
  (totalChars + 3) / 4

-- ============================================================================
-- Budget selection (src/services/diff-loader.ts:324 loadForBudget)
-- ============================================================================

/-- The `for (const cf of classified)` loop of `loadForBudget`, with the
running `totalTokens` as an accumulator. -/
def loadForBudgetGo : List ClassifiedFile → Nat → Nat → LoadBudgetResult
  | [], _, total => ⟨[], [], total⟩
  | cf :: rest, maxTokens, total =>
    if total + cf.estimatedTokens ≤ maxTokens then
      let r := loadForBudgetGo rest maxTokens (total + cf.estimatedTokens)
      ⟨cf :: r.included, r.excluded, r.totalTokens⟩
    else
      let r := loadForBudgetGo rest maxTokens total
      ⟨r.included, cf :: r.excluded, r.totalTokens⟩

/-- `loadForBudget` (diff-loader.ts:324): greedy best-effort fill starting
from a zero running total. -/
def loadForBudget (classified : List ClassifiedFile) (maxTokens : Nat) :
    LoadBudgetResult :=
  loadForBudgetGo classified maxTokens 0

-- ============================================================================
-- Strategy selection (src/services/decomposition/strategy-selector.ts)
-- ============================================================================

/-- `DecompositionStrategy` from src/services/decomposition/types.ts. -/
inductive DecompositionStrategy where
  | direct
  | twoPass
  | flowBased
  | hierarchical
deriving DecidableEq

/-- `DiffMetrics` from src/services/decomposition/types.ts. -/
structure DiffMetrics where
  fileCount : Nat
  totalLines : Nat
  estimatedTokens : Nat
  tier1FileCount : Nat
deriving DecidableEq

/-- `StrategySelection` from src/services/decomposition/types.ts. -/
structure StrategySelection where
  strategy : DecompositionStrategy
  reason : List Char
  metrics : DiffMetrics
deriving DecidableEq

/-- `SMALL_FILE_THRESHOLD` (strategy-selector.ts:10). -/
def SMALL_FILE_THRESHOLD : Nat := 15

/-- `SMALL_TOKEN_THRESHOLD` (strategy-selector.ts:13). -/
def SMALL_TOKEN_THRESHOLD : Nat := 8000

/-- `MEDIUM_FILE_THRESHOLD` (strategy-selector.ts:16). -/
def MEDIUM_FILE_THRESHOLD : Nat := 40

/-- `LARGE_FILE_THRESHOLD` (strategy-selector.ts:19). -/
def LARGE_FILE_THRESHOLD : Nat := 80

/-- `selectStrategy` (strategy-selector.ts:85): ordered inclusive threshold
checks mapping metrics to a strategy (with the template-literal reason
strings reproduced). -/
def selectStrategy (metrics : DiffMetrics) : StrategySelection :=
  if metrics.fileCount ≤ SMALL_FILE_THRESHOLD ∨
      metrics.estimatedTokens ≤ SMALL_TOKEN_THRESHOLD then
    { strategy := .direct,
      reason :=
        if metrics.fileCount ≤ SMALL_FILE_THRESHOLD then
          str "Small diff (" ++ natToChars metrics.fileCount ++ str " files ≤ " ++
            natToChars SMALL_FILE_THRESHOLD ++ str ")"
        else
          str "Low token count (" ++ natToChars metrics.estimatedTokens ++
            str " ≤ " ++ natToChars SMALL_TOKEN_THRESHOLD ++ str ")",
      metrics := metrics }
  else if metrics.fileCount ≤ MEDIUM_FILE_THRESHOLD then
    { strategy := .twoPass,
      reason := str "Medium diff (" ++ natToChars metrics.fileCount ++
        str " files, " ++ natToChars (SMALL_FILE_THRESHOLD + 1) ++ str "-" ++
        natToChars MEDIUM_FILE_THRESHOLD ++ str " range)",
      metrics := metrics }
  else if metrics.fileCount ≤ LARGE_FILE_THRESHOLD then
    { strategy := .flowBased,
      reason := str "Large diff (" ++ natToChars metrics.fileCount ++
        str " files, " ++ natToChars (MEDIUM_FILE_THRESHOLD + 1) ++ str "-" ++
        natToChars LARGE_FILE_THRESHOLD ++ str " range)",
      metrics := metrics }
  else
    { strategy := .hierarchical,
      reason := str "Huge diff (" ++ natToChars metrics.fileCount ++
        str " files > " ++ natToChars LARGE_FILE_THRESHOLD ++ str ")",
      metrics := metrics }

-- ============================================================================
-- Deleted-file summarization threshold (src/services/deleted-file-summary.ts)
-- ============================================================================

/-- `SUMMARY_THRESHOLD_LINES` (deleted-file-summary.ts:45). -/
def SUMMARY_THRESHOLD_LINES : Nat := 100

/-- `shouldSummarizeDeletedFile` (deleted-file-summary.ts:56): deleted files
whose delete-type line count exceeds 100. -/
def shouldSummarizeDeletedFile (file : DiffFile) : Bool :=
  if file.status ≠ .deleted then false
  else
    let deletedLineCount := file.hunks.foldl
      (fun sum hunk =>
        sum + (hunk.lines.filter (fun l => decide (l.type = .delete))).length)
      0
    decide (deletedLineCount > SUMMARY_THRESHOLD_LINES)

-- ============================================================================
-- Analysis result types (src/types/analysis.ts)
-- ============================================================================

/-- The `'low' | 'medium' | 'high' | 'critical'` severity enum. -/
inductive Severity where
  | low
  | medium
  | high
  | critical
deriving DecidableEq

/-- The `'high' | 'medium' | 'low'` confidence enum. -/
inductive Confidence where
  | high
  | medium
  | low
deriving DecidableEq

/-- `Risk` from src/types/analysis.ts (`file` and `mitigation` optional). -/
structure Risk where
  severity : Severity
  category : List Char
  description : List Char
  evidence : List Char
  file : Option (List Char) := none
  mitigation : Option (List Char) := none
deriving DecidableEq

/-- `RiskAssessment` from src/types/analysis.ts. -/
structure RiskAssessment where
  overallRisk : Severity
  summary : List Char
  risks : List Risk
  confidence : Confidence
deriving DecidableEq

/-- The 7-value `scope` enum of `DerivedIntent`. -/
inductive IntentScope where
  | feature
  | bugfix
  | refactor
  | config
  | docs
  | test
  | mixed
deriving DecidableEq

/-- `DerivedIntent` from src/types/analysis.ts. -/
structure DerivedIntent where
  summary : List Char
  purpose : List Char
  scope : IntentScope
  affectedAreas : List (List Char)
  suggestedReviewOrder : Option (List (List Char)) := none
deriving DecidableEq

/-- `Partial<DerivedIntent>` as used for `overviewIntent` in two-pass.ts
(every field possibly absent). -/
structure PartialDerivedIntent where
  summary : Option (List Char) := none
  purpose : Option (List Char) := none
  scope : Option IntentScope := none
  affectedAreas : Option (List (List Char)) := none
deriving DecidableEq

/-- `OverviewResult` from two-pass.ts. -/
structure OverviewResult where
  summary : List Char
  flaggedFiles : List (List Char)
  initialRisks : List Risk
  overviewIntent : PartialDerivedIntent
deriving DecidableEq

-- ============================================================================
-- Two-pass executor (src/services/decomposition/two-pass.ts)
-- ============================================================================

/-- JS `a || b` on an optional string field: `undefined` and the empty
string are both falsy. -/
def orElseNonempty (a : Option (List Char)) (b : List Char) : List Char :=
  match a with
  | some s => if s ≠ [] then s else b
  | none => b

/-- `runDeepDivePass` (two-pass.ts:769).  The external `chat` call composed
with `buildDeepDivePrompt` is modelled as an opaque analyzer function of
the same inputs (the spec treats the LLM call as an opaque function); the
zero-flagged-files short circuit is embedded exactly. -/
def runDeepDivePass
    (analyze : ParsedDiff → List ClassifiedFile → List (List Char) → List Char →
      Option (List Char) → Option (List Char) → RiskAssessment)
    (diff : ParsedDiff) (classified : List ClassifiedFile)
    (flaggedFiles : List (List Char)) (overviewSummary : List Char)
    (statedIntent repositoryContext : Option (List Char)) : RiskAssessment :=
  if flaggedFiles = [] then
    { overallRisk := .low,
      summary := str "No files required detailed review - change appears safe.",
      risks := [],
      confidence := .high }
  else analyze diff classified flaggedFiles overviewSummary statedIntent repositoryContext

/-- The numeric severity order of `mergeResults`
(`{ critical: 0, high: 1, medium: 2, low: 3 }`). -/
def severityOrder : Severity → Nat
  | .critical => 0
  | .high => 1
  | .medium => 2
  | .low => 3

/-- The dedup key `` `${r.category}:${r.description.slice(0, 50)}` `` of
`mergeResults`: the category and the first 50 characters of the
description joined with a colon into one string (JS `slice(0, 50)` is
`take 50`).  Distinct (category, description-prefix) pairs can collide
here when the category contains a colon. -/
def riskKey (r : Risk) : List Char := r.category ++ str ":" ++ r.description.take 50

/-- The `seen`-set filter of `mergeResults` (two-pass.ts:836-842): keep a
risk iff its key is not yet in `seen`, adding the key when kept. -/
def dedupRisksSeen : List Risk → List (List Char) → List Risk
  | [], _ => []
  | r :: rest, seen =>
    if riskKey r ∈ seen then dedupRisksSeen rest seen
    else r :: dedupRisksSeen rest (riskKey r :: seen)

/-- `mergeResults` (two-pass.ts:816): build the final intent from the
overview (JS `||` fallbacks), merge + dedup + severity-sort the risks
(the JS comparator sort on `severityOrder` values is a stable ascending
sort, modelled with `mergeSort`), derive `overallRisk` from the first
sorted risk, and build the merged summary. -/
def mergeResults (overview : OverviewResult) (deepDive : RiskAssessment) :
    DerivedIntent × RiskAssessment :=
  let intent0 : DerivedIntent :=
    { summary := orElseNonempty overview.overviewIntent.summary overview.summary,
      purpose := orElseNonempty overview.overviewIntent.purpose overview.summary,
      scope := (overview.overviewIntent.scope).getD .mixed,
      affectedAreas := (overview.overviewIntent.affectedAreas).getD [] }
  let intent :=
    if overview.flaggedFiles ≠ [] then
      { intent0 with suggestedReviewOrder := some overview.flaggedFiles }
    else intent0
  let allRisks := overview.initialRisks ++ deepDive.risks
  let uniqueRisks0 := dedupRisksSeen allRisks []
  let uniqueRisks := uniqueRisks0.mergeSort
    (fun a b => decide (severityOrder a.severity ≤ severityOrder b.severity))
  let overallRisk :=
    match uniqueRisks.head? with
    | some r => r.severity
    | none => Severity.low
  let criticalCount := (uniqueRisks.filter (fun r => decide (r.severity = .critical))).length
  let highCount := (uniqueRisks.filter (fun r => decide (r.severity = .high))).length
  let summary :=
    if uniqueRisks = [] then str "No significant risks identified in detailed review."
    else if criticalCount > 0 then
      natToChars criticalCount ++ str " critical risk(s) found. " ++ deepDive.summary
    else if highCount > 0 then
      natToChars highCount ++ str " high-severity risk(s) found. " ++ deepDive.summary
    else deepDive.summary
  (intent,
   { overallRisk := overallRisk, summary := summary, risks := uniqueRisks,
     confidence := deepDive.confidence })

-- ============================================================================
-- Flow detection (src/services/decomposition/flow-detection.ts)
-- ============================================================================

/-- One flow of the analyzer's raw flow-detection response (`name`,
`description`, `files`, `priority: number` — the priority may be
fractional, so it is modelled as `ℚ`). -/
structure RawFlow where
  name : List Char
  description : List Char
  files : List (List Char)
  priority : ℚ
deriving DecidableEq

/-- `DetectedFlow` (flow-detection.ts:47), after validation; the clamped
priority is integral. -/
structure DetectedFlow where
  name : List Char
  description : List Char
  files : List (List Char)
  priority : Int
deriving DecidableEq

/-- `FlowDetectionResult` (flow-detection.ts:61). -/
structure FlowDetectionResult where
  flows : List DetectedFlow
  uncategorized : List (List Char)
deriving DecidableEq

/-- `Math.max(1, Math.min(10, Math.round(priority)))`
(flow-detection.ts:320); `Math.round x = ⌊x + 1/2⌋` for finite numbers. -/
def clampPriority (p : ℚ) : Int := max 1 (min 10 (Int.floor (p + 1/2)))

/-- The validation loop of `detectFlows` (flow-detection.ts:301-323): filter
each flow's files to candidates not already assigned, extend the assigned
set, and keep the flow only when nonempty.  Returns the validated flows
and the final assigned set (as the list of assigned paths, in order). -/
def validateFlows (all : List (List Char)) :
    List RawFlow → List (List Char) → List DetectedFlow × List (List Char)
  | [], assigned => ([], assigned)
  | fl :: rest, assigned =>
    let validFiles := fl.files.filter
      (fun f => decide (f ∈ all) && !decide (f ∈ assigned))
    let assigned2 := assigned ++ validFiles
    let r := validateFlows all rest assigned2
    if validFiles.length > 0 then
      ({ name := fl.name, description := fl.description, files := validFiles,
         priority := clampPriority fl.priority } :: r.1, r.2)
    else (r.1, r.2)

/-- The tier-1/2 candidate paths of `detectFlows` (its `allFilePaths`). -/
def flowCandidatePaths (classified : List ClassifiedFile) : List (List Char) :=
  (classified.filter (fun cf => decide (cf.tier ≤ 2))).map (fun cf => cf.file.path)

/-- The response-processing part of `detectFlows` (flow-detection.ts:277):
the `chat` call returns `response`, which is passed in here; validate
each flow against the candidate set and the assigned set, sort the
surviving flows by priority (JS sort with a numeric comparator is a
stable ascending sort, modelled with `mergeSort`), and collect the
unassigned candidates as `uncategorized`. -/
def detectFlowsValidate (classified : List ClassifiedFile) (response : List RawFlow) :
    FlowDetectionResult :=
  let relevantFiles := classified.filter (fun cf => decide (cf.tier ≤ 2))
  let allFilePaths := relevantFiles.map (fun cf => cf.file.path)
  let v := validateFlows allFilePaths response []
  let validatedFlows := v.1.mergeSort (fun a b => decide (a.priority ≤ b.priority))
  let uncategorized := (relevantFiles.filter
    (fun cf => !decide (cf.file.path ∈ v.2))).map (fun cf => cf.file.path)
  { flows := validatedFlows, uncategorized := uncategorized }

-- ============================================================================
-- Helper lemmas
-- ============================================================================

theorem foldl_add_map (g : α → Nat) (l : List α) (a : Nat) :
    l.foldl (fun s x => s + g x) a = a + (l.map g).sum := by
  induction l generalizing a with
  | nil => simp
  | cons x xs ih => simp [ih, Nat.add_assoc]

-- ============================================================================
-- C2: strategy selection thresholds
-- ============================================================================

/-- C2: `selectStrategy` evaluates the fixed inclusive thresholds in order:
`fileCount ≤ 15` or `estimatedTokens ≤ 8000` gives `direct` (either alone
suffices); otherwise `fileCount ≤ 40` gives `two-pass`, `fileCount ≤ 80`
gives `flow-based`, and anything larger gives `hierarchical` — with the
concrete boundary points 15 → direct (any token count), and, at more than
8000 tokens, 16/40 → two-pass, 41/80 → flow-based, 81 → hierarchical. -/
theorem selectStrategy_thresholds :
    (∀ m : DiffMetrics,
      ((selectStrategy m).strategy = .direct ↔
        m.fileCount ≤ 15 ∨ m.estimatedTokens ≤ 8000) ∧
      ((selectStrategy m).strategy = .twoPass ↔
        15 < m.fileCount ∧ 8000 < m.estimatedTokens ∧ m.fileCount ≤ 40) ∧
      ((selectStrategy m).strategy = .flowBased ↔
        40 < m.fileCount ∧ 8000 < m.estimatedTokens ∧ m.fileCount ≤ 80) ∧
      ((selectStrategy m).strategy = .hierarchical ↔
        80 < m.fileCount ∧ 8000 < m.estimatedTokens)) ∧
    (selectStrategy ⟨15, 0, 1000000, 0⟩).strategy = .direct ∧
    (selectStrategy ⟨16, 0, 8001, 0⟩).strategy = .twoPass ∧
    (selectStrategy ⟨40, 0, 8001, 0⟩).strategy = .twoPass ∧
    (selectStrategy ⟨41, 0, 8001, 0⟩).strategy = .flowBased ∧
    (selectStrategy ⟨80, 0, 8001, 0⟩).strategy = .flowBased ∧
    (selectStrategy ⟨81, 0, 8001, 0⟩).strategy = .hierarchical := by
  refine ⟨fun m => ?_, by decide, by decide, by decide, by decide, by decide, by decide⟩
  simp only [selectStrategy, SMALL_FILE_THRESHOLD, SMALL_TOKEN_THRESHOLD,
    MEDIUM_FILE_THRESHOLD, LARGE_FILE_THRESHOLD]
  split_ifs with h1 h2 h3 <;> simp_all <;> omega

-- ============================================================================
-- C8: deleted-file summarization boundary
-- ============================================================================

/-- A deleted `DiffFile` whose single hunk deletes exactly `n` lines (used
for the C8 boundary instances). -/
def mkDeletedFile (n : Nat) : DiffFile :=
  { path := str "old.ts", status := .deleted, isBinary := false,
    hunks := [{ oldStart := 1, oldLines := n, newStart := 0, newLines := 0,
                header := str "@@ -1," ++ natToChars n ++ str " +0,0 @@",
                lines := List.replicate n ⟨.delete, str "x", some 1, none⟩ }] }

/-- C8: `shouldSummarizeDeletedFile` is true exactly for deleted files with
strictly more than 100 delete-type lines across all hunks; a deleted file
with exactly 100 delete lines is not summarized, one with 101 is, and a
non-deleted file is never summarized. -/
theorem shouldSummarize_iff_deleted_over_100 :
    (∀ f : DiffFile,
      shouldSummarizeDeletedFile f = true ↔
        f.status = .deleted ∧
        100 < (f.hunks.map
          (fun h => (h.lines.filter (fun l => decide (l.type = .delete))).length)).sum) ∧
    (∀ f : DiffFile, f.status ≠ .deleted → shouldSummarizeDeletedFile f = false) ∧
    shouldSummarizeDeletedFile (mkDeletedFile 100) = false ∧
    shouldSummarizeDeletedFile (mkDeletedFile 101) = true := by
  have hcount : ∀ f : DiffFile,
      f.hunks.foldl
        (fun sum hunk =>
          sum + (hunk.lines.filter (fun l => decide (l.type = .delete))).length) 0 =
      (f.hunks.map
        (fun h => (h.lines.filter (fun l => decide (l.type = .delete))).length)).sum := by
    intro f
    simpa using foldl_add_map
      (fun h : DiffHunk => (h.lines.filter (fun l => decide (l.type = .delete))).length)
      f.hunks 0
  refine ⟨fun f => ?_, fun f hf => ?_, by decide, by decide⟩
  · unfold shouldSummarizeDeletedFile SUMMARY_THRESHOLD_LINES
    rw [hcount f]
    split_ifs with h1 <;> simp_all
  · unfold shouldSummarizeDeletedFile
    rw [if_pos hf]

/-- C8 witness: the non-deleted conjunct applied at a concrete modified
file. -/
theorem shouldSummarize_iff_deleted_over_100_witness :
    ({ path := str "a.ts", status := .modified, hunks := [],
       isBinary := false } : DiffFile).status ≠ DiffFileStatus.deleted ∧
    shouldSummarizeDeletedFile
      { path := str "a.ts", status := .modified, hunks := [], isBinary := false } = false :=
  ⟨by decide,
   shouldSummarize_iff_deleted_over_100.2.1
     { path := str "a.ts", status := .modified, hunks := [], isBinary := false }
     (by decide)⟩

-- ============================================================================
-- C9: per-file token estimate
-- ============================================================================

theorem foldl_line_chars (lines : List DiffLine) (a : Nat) :
    lines.foldl (fun acc2 line => acc2 + line.content.length + 2) a =
      a + (lines.map (fun l => l.content.length + 2)).sum := by
  induction lines generalizing a with
  | nil => simp
  | cons x xs ih =>
    simp only [List.foldl_cons, List.map_cons, List.sum_cons]
    rw [ih]
    omega

theorem foldl_hunk_chars (hunks : List DiffHunk) (a : Nat) :
    hunks.foldl (fun acc hunk =>
        hunk.lines.foldl (fun acc2 line => acc2 + line.content.length + 2)
          (acc + hunk.header.length)) a =
      a + (hunks.map (fun h => h.header.length +
        (h.lines.map (fun l => l.content.length + 2)).sum)).sum := by
  induction hunks generalizing a with
  | nil => simp
  | cons h hs ih =>
    simp only [List.foldl_cons, List.map_cons, List.sum_cons]
    rw [ih, foldl_line_chars]
    omega

/-- C9: the classifier per-file estimate is the shared char/4 ceiling
heuristic applied to the total character count — the sum of hunk header
lengths plus, for every hunk line, its content length plus 2; it agrees
with `estimateTokensText` on any text of that total length.  A single
hunk whose body is one 400-character line under an ordinary `@@...@@`
header (at most 74 characters) estimates strictly between 90 and 120
tokens and never exactly 100. -/
theorem estimateTokens_charDiv4 :
    (∀ hunks : List DiffHunk,
      estimateTokens hunks =
        ((hunks.map (fun h => h.header.length +
          (h.lines.map (fun l => l.content.length + 2)).sum)).sum + 3) / 4) ∧
    (∀ (hunks : List DiffHunk) (text : List Char),
      text.length =
        (hunks.map (fun h => h.header.length +
          (h.lines.map (fun l => l.content.length + 2)).sum)).sum →
      estimateTokens hunks = estimateTokensText text) ∧
    (∀ (h : DiffHunk) (l : DiffLine), h.lines = [l] → l.content.length = 400 →
      h.header.length ≤ 74 →
      90 < estimateTokens [h] ∧ estimateTokens [h] < 120 ∧ estimateTokens [h] ≠ 100) := by
  have hf : ∀ hunks : List DiffHunk,
      estimateTokens hunks =
        ((hunks.map (fun h => h.header.length +
          (h.lines.map (fun l => l.content.length + 2)).sum)).sum + 3) / 4 := by
    intro hunks
    simp only [estimateTokens]
    rw [foldl_hunk_chars, Nat.zero_add]
  refine ⟨hf, fun hunks text ht => ?_, fun h l hl hc hh => ?_⟩
  · rw [hf, estimateTokensText, ht]
  · have hone := hf [h]
    simp only [List.map_cons, List.map_nil, List.sum_cons, List.sum_nil,
      Nat.add_zero] at hone
    rw [hl] at hone
    simp only [List.map_cons, List.map_nil, List.sum_cons, List.sum_nil,
      Nat.add_zero] at hone
    rw [hc] at hone
    refine ⟨?_, ?_, ?_⟩ <;> rw [hone] <;> omega

/-- The 400-character added line of the concrete C9 scenario. -/
def lineC9 : DiffLine := ⟨.add, List.replicate 400 'a', none, some 1⟩

/-- The concrete C9 scenario hunk: one 400-character added line under an
11-character header. -/
def hunkC9 : DiffHunk :=
  { oldStart := 1, oldLines := 1, newStart := 1, newLines := 1,
    header := str "@@ -1 +1 @@",
    lines := [lineC9] }

set_option maxRecDepth 4000 in
/-- C9 witness: the scenario conjunct applied at the concrete hunk. -/
theorem estimateTokens_charDiv4_witness :
    90 < estimateTokens [hunkC9] ∧ estimateTokens [hunkC9] < 120 ∧
      estimateTokens [hunkC9] ≠ 100 :=
  estimateTokens_charDiv4.2.2 hunkC9 lineC9
    rfl (by decide) (by decide)

-- ============================================================================
-- C1: loadForBudget greedy best-effort fill
-- ============================================================================

theorem loadForBudgetGo_total (c : List ClassifiedFile) (m t : Nat) :
    (loadForBudgetGo c m t).totalTokens =
      t + ((loadForBudgetGo c m t).included.map (fun cf => cf.estimatedTokens)).sum := by
  induction c generalizing t with
  | nil => simp [loadForBudgetGo]
  | cons cf rest ih =>
    rw [loadForBudgetGo]
    split_ifs with h
    · simp only [List.map_cons, List.sum_cons]
      rw [ih]
      omega
    · simpa using ih t

theorem loadForBudgetGo_le (c : List ClassifiedFile) (m t : Nat) (ht : t ≤ m) :
    (loadForBudgetGo c m t).totalTokens ≤ m := by
  induction c generalizing t with
  | nil => simpa [loadForBudgetGo]
  | cons cf rest ih =>
    rw [loadForBudgetGo]
    split_ifs with h
    · exact ih (t + cf.estimatedTokens) h
    · exact ih t ht

theorem loadForBudgetGo_sublists (c : List ClassifiedFile) (m t : Nat) :
    (loadForBudgetGo c m t).included.Sublist c ∧
      (loadForBudgetGo c m t).excluded.Sublist c := by
  induction c generalizing t with
  | nil => simp [loadForBudgetGo]
  | cons cf rest ih =>
    rw [loadForBudgetGo]
    split_ifs with h
    · exact ⟨List.Sublist.cons₂ cf (ih (t + cf.estimatedTokens)).1,
             List.Sublist.cons cf (ih (t + cf.estimatedTokens)).2⟩
    · exact ⟨List.Sublist.cons cf (ih t).1, List.Sublist.cons₂ cf (ih t).2⟩

theorem loadForBudgetGo_zero (c : List ClassifiedFile) :
    loadForBudgetGo c 0 0 =
      ⟨c.filter (fun cf => decide (cf.estimatedTokens = 0)),
       c.filter (fun cf => !decide (cf.estimatedTokens = 0)), 0⟩ := by
  induction c with
  | nil => simp [loadForBudgetGo]
  | cons cf rest ih =>
    rw [loadForBudgetGo]
    split_ifs with h
    · have hz : cf.estimatedTokens = 0 := by omega
      simp [List.filter_cons, hz, ih]
    · have hz : ¬cf.estimatedTokens = 0 := by omega
      simp only [List.filter_cons]
      simp [hz, ih]

theorem loadForBudgetGo_all (c : List ClassifiedFile) (m t : Nat)
    (h : t + (c.map (fun cf => cf.estimatedTokens)).sum ≤ m) :
    loadForBudgetGo c m t =
      ⟨c, [], t + (c.map (fun cf => cf.estimatedTokens)).sum⟩ := by
  induction c generalizing t with
  | nil => simp_all [loadForBudgetGo]
  | cons cf rest ih =>
    simp only [List.map_cons, List.sum_cons] at h
    rw [loadForBudgetGo]
    have hc : t + cf.estimatedTokens ≤ m := by omega
    rw [if_pos hc, ih (t + cf.estimatedTokens) (by omega)]
    simp
    omega

/-- C1 (amended): `loadForBudget` walks the classified list in order with a
running total starting at 0, so that `included` and `excluded` are
complementary sublists of the input, `totalTokens` is the sum of the
included files' estimates and never exceeds the budget; a skipped
oversized head does not stop the walk (the tail is processed with the
same unchanged total); the budget-0 result includes exactly the files
whose estimate is 0 (so it is empty iff every estimate is positive), and
a budget at least the sum of all estimates includes every file. -/
theorem loadForBudget_greedy (c : List ClassifiedFile) (m : Nat) :
    ((loadForBudget c m).totalTokens =
      ((loadForBudget c m).included.map (fun cf => cf.estimatedTokens)).sum) ∧
    ((loadForBudget c m).totalTokens ≤ m) ∧
    ((loadForBudget c m).included.Sublist c ∧ (loadForBudget c m).excluded.Sublist c) ∧
    (∀ (a : ClassifiedFile) (rest : List ClassifiedFile), m < a.estimatedTokens →
      loadForBudget (a :: rest) m =
        ⟨(loadForBudget rest m).included, a :: (loadForBudget rest m).excluded,
         (loadForBudget rest m).totalTokens⟩) ∧
    ((loadForBudget c 0).included = c.filter (fun cf => decide (cf.estimatedTokens = 0))) ∧
    ((c.map (fun cf => cf.estimatedTokens)).sum ≤ m →
      (loadForBudget c m).included = c ∧ (loadForBudget c m).excluded = []) := by
  refine ⟨?_, ?_, ?_, ?_, ?_, ?_⟩
  · simpa using loadForBudgetGo_total c m 0
  · exact loadForBudgetGo_le c m 0 (Nat.zero_le m)
  · exact loadForBudgetGo_sublists c m 0
  · intro a rest ha
    unfold loadForBudget
    rw [loadForBudgetGo]
    rw [if_neg (by omega)]
  · rw [loadForBudget, loadForBudgetGo_zero]
  · intro hsum
    rw [loadForBudget, loadForBudgetGo_all c m 0 (by omega)]
    exact ⟨rfl, rfl⟩

/-- A one-line one-hunk `ClassifiedFile` with the given estimate (C1/C5
concrete instances). -/
def mkCF (p : String) (tier est : Nat) : ClassifiedFile :=
  { file := { path := str p, status := .modified, hunks := [], isBinary := false },
    tier := tier, reason := str "source code", estimatedTokens := est }

/-- C1 witness: the skip-continue conjunct and the everything-fits conjunct
applied at concrete inputs (a 50-token file over a 10-token budget is
skipped while the 3-token file after it is still included). -/
theorem loadForBudget_greedy_witness :
    (10 < (mkCF "big.ts" 1 50).estimatedTokens ∧
      loadForBudget [mkCF "big.ts" 1 50, mkCF "small.ts" 1 3] 10 =
        ⟨(loadForBudget [mkCF "small.ts" 1 3] 10).included,
         mkCF "big.ts" 1 50 :: (loadForBudget [mkCF "small.ts" 1 3] 10).excluded,
         (loadForBudget [mkCF "small.ts" 1 3] 10).totalTokens⟩) ∧
    (([mkCF "small.ts" 1 3].map (fun cf => cf.estimatedTokens)).sum ≤ 10 ∧
      (loadForBudget [mkCF "small.ts" 1 3] 10).included = [mkCF "small.ts" 1 3]) :=
  ⟨⟨by decide,
    (loadForBudget_greedy [] 10).2.2.2.1 (mkCF "big.ts" 1 50) [mkCF "small.ts" 1 3]
      (by decide)⟩,
   ⟨by decide,
    ((loadForBudget_greedy [mkCF "small.ts" 1 3] 10).2.2.2.2.2 (by decide)).1⟩⟩

/-- C1 counterexample: the claim "loadForBudget(list, 0).included is empty"
fails on a classified list containing a zero-estimate file (for example a
binary file, whose hunk list is empty and whose estimate is therefore 0):
with budget 0 that file is still included. -/
theorem loadForBudget_zero_budget_counterexample :
    (loadForBudget
        [{ file := { path := str "img.png", status := .modified, hunks := [],
                     isBinary := true },
           tier := 3, reason := str "binary file", estimatedTokens := 0 }] 0).included ≠
      [] := by
  decide

-- ============================================================================
-- C7: deep-dive short circuit
-- ============================================================================

/-- C7: with zero flagged files, `runDeepDivePass` returns the fixed
low-risk, empty-risks, high-confidence assessment, and the result does
not depend on the analyzer function at all. -/
theorem runDeepDivePass_short_circuit :
    ∀ (analyze analyze2 :
        ParsedDiff → List ClassifiedFile → List (List Char) → List Char →
          Option (List Char) → Option (List Char) → RiskAssessment)
      (diff : ParsedDiff) (classified : List ClassifiedFile)
      (overviewSummary : List Char) (statedIntent repositoryContext : Option (List Char)),
      runDeepDivePass analyze diff classified [] overviewSummary statedIntent
          repositoryContext =
        { overallRisk := .low,
          summary := str "No files required detailed review - change appears safe.",
          risks := [], confidence := .high } ∧
      runDeepDivePass analyze diff classified [] overviewSummary statedIntent
          repositoryContext =
        runDeepDivePass analyze2 diff classified [] overviewSummary statedIntent
          repositoryContext := by
  intro analyze analyze2 diff classified os si rc
  constructor
  · rw [runDeepDivePass, if_pos rfl]
  · rw [runDeepDivePass, if_pos rfl, runDeepDivePass, if_pos rfl]

-- ============================================================================
-- C10: unknown-prefix hunk lines are kept as context lines
-- ============================================================================

/-- C10: inside a hunk, a nonempty line whose first character is none of
`+`, `-`, space, `\` and which does not look like a hunk/file header
(`@@`, `diff --git `, `index `, `--- `, `+++ `, `new file`,
`deleted file`) neither raises nor ends the hunk: it is recorded as a
context line whose content drops the first character, carrying both
current line numbers, and both counters advance. -/
theorem parseHunkLines_unknown_is_context
    (c : Char) (cs : List Char) (rest : List (List Char)) (o n : Nat)
    (hplus : c ≠ '+') (hminus : c ≠ '-') (hspace : c ≠ ' ') (hback : c ≠ '\\')
    (hat : ¬ str "@@" <+: (c :: cs)) (hgit : ¬ str "diff --git " <+: (c :: cs))
    (hidx : ¬ str "index " <+: (c :: cs)) (hmmm : ¬ str "--- " <+: (c :: cs))
    (hppp : ¬ str "+++ " <+: (c :: cs)) (hnew : ¬ str "new file" <+: (c :: cs))
    (hdel : ¬ str "deleted file" <+: (c :: cs)) :
    parseHunkLines ((c :: cs) :: rest) o n =
      (⟨.context, cs, some o, some n⟩ :: (parseHunkLines rest (o + 1) (n + 1)).1,
       (parseHunkLines rest (o + 1) (n + 1)).2) := by
  have hbs : ¬ str "\\" <+: (c :: cs) := by
    intro hpre
    rw [show str "\\" = ['\\'] from rfl, List.cons_prefix_cons] at hpre
    exact hback hpre.1.symm
  rw [parseHunkLines]
  rw [if_neg (by push_neg; exact ⟨hgit, hat⟩), if_neg hbs,
      if_neg (by simp), if_neg hplus, if_neg hminus, if_neg hspace,
      if_neg (by push_neg; exact ⟨hidx, hmmm, hppp, hnew, hdel⟩)]

-- ============================================================================
-- C4: line-number invariants of parsed hunks
-- ============================================================================

/-- The two running counters of hunk parsing, as a predicate: starting from
`o`/`n`, each line carries exactly the numbers of its type and advances
exactly the counters of its type. -/
def linesNumbered : List DiffLine → Nat → Nat → Prop
  | [], _, _ => True
  | dl :: rest, o, n =>
    match dl.type with
    | .add => dl.oldLineNumber = none ∧ dl.newLineNumber = some n ∧
        linesNumbered rest o (n + 1)
    | .delete => dl.oldLineNumber = some o ∧ dl.newLineNumber = none ∧
        linesNumbered rest (o + 1) n
    | .context => dl.oldLineNumber = some o ∧ dl.newLineNumber = some n ∧
        linesNumbered rest (o + 1) (n + 1)

theorem parseHunkLines_numbered (ls : List (List Char)) (o n : Nat) :
    linesNumbered (parseHunkLines ls o n).1 o n := by
  induction ls, o, n using parseHunkLines.induct <;>
    (rw [parseHunkLines.eq_def]) <;> simp_all [linesNumbered]

theorem linesNumbered_presence (L : List DiffLine) (o n : Nat)
    (h : linesNumbered L o n) :
    ∀ dl ∈ L,
      (dl.type = .add → dl.oldLineNumber = none ∧ dl.newLineNumber ≠ none) ∧
      (dl.type = .delete → dl.oldLineNumber ≠ none ∧ dl.newLineNumber = none) ∧
      (dl.type = .context → dl.oldLineNumber ≠ none ∧ dl.newLineNumber ≠ none) := by
  induction L generalizing o n with
  | nil => simp
  | cons dl rest ih =>
    intro x hx
    rw [linesNumbered] at h
    cases hx with
    | head =>
      cases htype : dl.type <;> rw [htype] at h <;>
        refine ⟨fun ht => ?_, fun ht => ?_, fun ht => ?_⟩ <;>
        simp_all
    | tail _ hmem =>
      cases htype : dl.type <;> rw [htype] at h <;>
        exact ih _ _ h.2.2 x hmem

theorem linesNumbered_ranges (L : List DiffLine) (o n : Nat)
    (h : linesNumbered L o n) :
    L.filterMap (fun dl => dl.oldLineNumber) =
      List.range' o (L.filterMap (fun dl => dl.oldLineNumber)).length ∧
    L.filterMap (fun dl => dl.newLineNumber) =
      List.range' n (L.filterMap (fun dl => dl.newLineNumber)).length := by
  induction L generalizing o n with
  | nil => simp
  | cons dl rest ih =>
    rw [linesNumbered] at h
    cases htype : dl.type <;> rw [htype] at h
    · obtain ⟨h1, h2, h3⟩ := h
      have hih := ih _ _ h3
      constructor
      · simp only [List.filterMap_cons, h1, List.length_cons, List.range'_succ]
        exact congrArg (o :: ·) hih.1
      · simp only [List.filterMap_cons, h2, List.length_cons, List.range'_succ]
        exact congrArg (n :: ·) hih.2
    · obtain ⟨h1, h2, h3⟩ := h
      have hih := ih _ _ h3
      constructor
      · simp only [List.filterMap_cons, h1]
        exact hih.1
      · simp only [List.filterMap_cons, h2, List.length_cons, List.range'_succ]
        exact congrArg (n :: ·) hih.2
    · obtain ⟨h1, h2, h3⟩ := h
      have hih := ih _ _ h3
      constructor
      · simp only [List.filterMap_cons, h1, List.length_cons, List.range'_succ]
        exact congrArg (o :: ·) hih.1
      · simp only [List.filterMap_cons, h2]
        exact hih.2

/-- The per-hunk invariant: the hunk's lines are numbered by the counters
starting at its own `oldStart`/`newStart`. -/
def hunkNumbered (hk : DiffHunk) : Prop :=
  linesNumbered hk.lines hk.oldStart hk.newStart

theorem parseHunkFull_numbered (hl : List Char) (body : List (List Char))
    (hk : DiffHunk) (r : List (List Char))
    (h : parseHunkFull hl body = .ok (hk, r)) : hunkNumbered hk := by
  unfold parseHunkFull at h
  cases hh : parseHunkHeader hl with
  | none => rw [hh] at h; exact absurd h (by simp)
  | some v =>
    obtain ⟨a, b, c, d⟩ := v
    rw [hh] at h
    simp only [Except.ok.injEq, Prod.mk.injEq] at h
    rw [hunkNumbered, ← h.1]
    exact parseHunkLines_numbered body a c

theorem parseFileBody_numbered (ls : List (List Char)) (st : DiffFileStatus)
    (op : Option (List Char)) (bin : Bool) :
    ∀ st2 op2 bin2 hunks r, parseFileBody ls st op bin = .ok (st2, op2, bin2, hunks, r) →
      ∀ hk ∈ hunks, hunkNumbered hk := by
  induction ls, st, op, bin using parseFileBody.induct with
  | case1 st op bin =>
    intro st2 op2 bin2 hunks r h
    rw [parseFileBody] at h
    simp only [Except.ok.injEq, Prod.mk.injEq] at h
    simp [← h.2.2.2.1]
  | case2 st op bin l ls hc =>
    intro st2 op2 bin2 hunks r h
    rw [parseFileBody, if_pos hc] at h
    simp only [Except.ok.injEq, Prod.mk.injEq] at h
    simp [← h.2.2.2.1]
  | case3 st op bin l ls h1 h2 ih =>
    intro st2 op2 bin2 hunks r h
    rw [parseFileBody, if_neg h1, if_pos h2] at h
    exact ih st2 op2 bin2 hunks r h
  | case4 st op bin l ls h1 h2 h3 ih =>
    intro st2 op2 bin2 hunks r h
    rw [parseFileBody, if_neg h1, if_neg h2, if_pos h3] at h
    exact ih st2 op2 bin2 hunks r h
  | case5 st op bin l ls h1 h2 h3 h4 ih =>
    intro st2 op2 bin2 hunks r h
    rw [parseFileBody, if_neg h1, if_neg h2, if_neg h3, if_pos h4] at h
    exact ih st2 op2 bin2 hunks r h
  | case6 st op bin l ls h1 h2 h3 h4 h5 ih =>
    intro st2 op2 bin2 hunks r h
    rw [parseFileBody, if_neg h1, if_neg h2, if_neg h3, if_neg h4, if_pos h5] at h
    exact ih st2 op2 bin2 hunks r h
  | case7 st op bin l ls h1 h2 h3 h4 h5 h6 ih =>
    intro st2 op2 bin2 hunks r h
    rw [parseFileBody, if_neg h1, if_neg h2, if_neg h3, if_neg h4, if_neg h5,
        if_pos h6] at h
    exact ih st2 op2 bin2 hunks r h
  | case8 st op bin l ls h1 h2 h3 h4 h5 h6 h7 =>
    intro st2 op2 bin2 hunks r h
    rw [parseFileBody, if_neg h1, if_neg h2, if_neg h3, if_neg h4, if_neg h5,
        if_neg h6, if_pos h7] at h
    simp only [Except.ok.injEq, Prod.mk.injEq] at h
    simp [← h.2.2.2.1]
  | case9 st op bin l ls h1 h2 h3 h4 h5 h6 h7 h8 e heq =>
    intro st2 op2 bin2 hunks r h
    rw [parseFileBody, if_neg h1, if_neg h2, if_neg h3, if_neg h4, if_neg h5,
        if_neg h6, if_neg h7, if_pos h8, heq] at h
    exact absurd h (by simp)
  | case10 st op bin l ls h1 h2 h3 h4 h5 h6 h7 h8 hunk rest2 heq e herr ih =>
    intro st2 op2 bin2 hunks r h
    rw [parseFileBody, if_neg h1, if_neg h2, if_neg h3, if_neg h4, if_neg h5,
        if_neg h6, if_neg h7, if_pos h8, heq] at h
    dsimp only at h
    rw [herr] at h
    exact absurd h (by simp)
  | case11 st op bin l ls h1 h2 h3 h4 h5 h6 h7 h8 hunk rest2 heq st3 op3 bin3 hunks3 r3 hok ih =>
    intro st2 op2 bin2 hunks r h
    rw [parseFileBody, if_neg h1, if_neg h2, if_neg h3, if_neg h4, if_neg h5,
        if_neg h6, if_neg h7, if_pos h8, heq] at h
    dsimp only at h
    rw [hok] at h
    simp only [Except.ok.injEq, Prod.mk.injEq] at h
    intro hk hmem
    rw [← h.2.2.2.1] at hmem
    cases hmem with
    | head => exact parseHunkFull_numbered l ls hunk rest2 heq
    | tail _ hmem2 => exact ih st3 op3 bin3 hunks3 r3 hok hk hmem2
  | case12 st op bin l ls h1 h2 h3 h4 h5 h6 h7 h8 ih =>
    intro st2 op2 bin2 hunks r h
    rw [parseFileBody, if_neg h1, if_neg h2, if_neg h3, if_neg h4, if_neg h5,
        if_neg h6, if_neg h7, if_neg h8] at h
    exact ih st2 op2 bin2 hunks r h

theorem parseFile_numbered (dl : List Char) (rest : List (List Char))
    (f : DiffFile) (r : List (List Char)) (h : parseFile dl rest = .ok (f, r)) :
    ∀ hk ∈ f.hunks, hunkNumbered hk := by
  unfold parseFile at h
  cases hb : parseFileBody rest .modified none false with
  | error e => rw [hb] at h; exact absurd h (by simp)
  | ok v =>
    obtain ⟨st, op, bin, hunks, r2⟩ := v
    rw [hb] at h
    simp only [Except.ok.injEq, Prod.mk.injEq] at h
    have hfh : f.hunks = hunks := by rw [← h.1]
    rw [hfh]
    exact parseFileBody_numbered rest .modified none false st op bin hunks r2 hb

theorem parseDiffLoop_numbered (ls : List (List Char)) :
    ∀ files, parseDiffLoop ls = .ok files →
      ∀ f ∈ files, ∀ hk ∈ f.hunks, hunkNumbered hk := by
  induction ls using parseDiffLoop.induct with
  | case1 =>
    intro files h
    rw [parseDiffLoop] at h
    simp only [Except.ok.injEq] at h
    simp [← h]
  | case2 l ls hpre e heq =>
    intro files h
    rw [parseDiffLoop, if_pos hpre, heq] at h
    exact absurd h (by simp)
  | case3 l ls hpre file r hf e herr ih =>
    intro files h
    rw [parseDiffLoop, if_pos hpre, hf] at h
    dsimp only at h
    rw [herr] at h
    exact absurd h (by simp)
  | case4 l ls hpre file r hf files2 hloop ih =>
    intro files h
    rw [parseDiffLoop, if_pos hpre, hf] at h
    dsimp only at h
    rw [hloop] at h
    simp only [Except.ok.injEq] at h
    intro f hmem
    rw [← h] at hmem
    cases hmem with
    | head => exact parseFile_numbered l ls file r hf
    | tail _ hmem2 => exact ih files2 hloop f hmem2
  | case5 l ls hpre ih =>
    intro files h
    rw [parseDiffLoop, if_neg hpre] at h
    exact ih files h

/-- C4: in every hunk produced by `parseDiff`, an add line carries only a
new line number, a delete line only an old line number, a context line
both; and the old numbers (over delete and context lines) and the new
numbers (over add and context lines) form the consecutive — in
particular strictly increasing — ranges starting at the hunk's
`oldStart` and `newStart` respectively. -/
theorem parse_line_number_invariants (raw : List Char) (d : ParsedDiff)
    (h : parseDiff raw = .ok d) :
    ∀ f ∈ d.files, ∀ hk ∈ f.hunks,
      (∀ dl ∈ hk.lines,
        (dl.type = .add → dl.oldLineNumber = none ∧ dl.newLineNumber ≠ none) ∧
        (dl.type = .delete → dl.oldLineNumber ≠ none ∧ dl.newLineNumber = none) ∧
        (dl.type = .context → dl.oldLineNumber ≠ none ∧ dl.newLineNumber ≠ none)) ∧
      hk.lines.filterMap (fun dl => dl.oldLineNumber) =
        List.range' hk.oldStart (hk.lines.filterMap (fun dl => dl.oldLineNumber)).length ∧
      hk.lines.filterMap (fun dl => dl.newLineNumber) =
        List.range' hk.newStart (hk.lines.filterMap (fun dl => dl.newLineNumber)).length := by
  intro f hf hk hhk
  have hnum : hunkNumbered hk := by
    unfold parseDiff at h
    split_ifs at h with hw
    · simp only [Except.ok.injEq] at h
      rw [← h] at hf
      simp at hf
    · cases hloop : parseDiffLoop (splitLines raw) with
      | error e => rw [hloop] at h; exact absurd h (by simp)
      | ok files =>
        rw [hloop] at h
        simp only [Except.ok.injEq] at h
        have : f ∈ files := by rw [← h] at hf; exact hf
        exact parseDiffLoop_numbered (splitLines raw) files hloop f this hk hhk
  exact ⟨linesNumbered_presence hk.lines hk.oldStart hk.newStart hnum,
         linesNumbered_ranges hk.lines hk.oldStart hk.newStart hnum⟩

/-- The concrete C4 example hunk (from
`diff --git a/f.ts b/f.ts`, `@@ -3,3 +5,3 @@`, ` ctx`, `-del`, `+add`). -/
def hunkC4 : DiffHunk :=
  { oldStart := 3, oldLines := 3, newStart := 5, newLines := 3,
    header := str "@@ -3,3 +5,3 @@",
    lines := [⟨.context, str "ctx", some 3, some 5⟩,
              ⟨.delete, str "del", some 4, none⟩,
              ⟨.add, str "add", none, some 6⟩] }

/-- The concrete C4 example file. -/
def fileC4 : DiffFile :=
  { path := str "f.ts", oldPath := none, status := .modified,
    hunks := [hunkC4], isBinary := false }

set_option maxRecDepth 4000 in
theorem parseDiff_rawC4 :
    parseDiff (str "diff --git a/f.ts b/f.ts\n@@ -3,3 +5,3 @@\n ctx\n-del\n+add") =
      .ok ⟨[fileC4]⟩ := by
  have hhunk : parseHunkFull (str "@@ -3,3 +5,3 @@") [str " ctx", str "-del", str "+add"]
      = .ok (hunkC4, []) := by decide
  have hbody : parseFileBody [str "@@ -3,3 +5,3 @@", str " ctx", str "-del", str "+add"]
      .modified none false = .ok (.modified, none, false, [hunkC4], []) := by
    rw [parseFileBody, if_neg (by decide), if_neg (by decide), if_neg (by decide),
        if_neg (by decide), if_neg (by decide), if_neg (by decide), if_neg (by decide),
        if_pos (by decide), hhunk]
    dsimp only
    rw [parseFileBody]
  have hfile : parseFile (str "diff --git a/f.ts b/f.ts")
      [str "@@ -3,3 +5,3 @@", str " ctx", str "-del", str "+add"] = .ok (fileC4, []) := by
    unfold parseFile
    rw [hbody]
    decide
  have hsplit : splitLines (str "diff --git a/f.ts b/f.ts\n@@ -3,3 +5,3 @@\n ctx\n-del\n+add") =
      [str "diff --git a/f.ts b/f.ts", str "@@ -3,3 +5,3 @@", str " ctx", str "-del",
       str "+add"] := by decide
  rw [parseDiff, if_neg (by decide), hsplit, parseDiffLoop, if_pos (by decide), hfile]
  dsimp only
  rw [parseDiffLoop]

/-- C4 witness: the invariants theorem applied at the concrete parsed diff
above, instantiated at its single file and hunk. -/
theorem parse_line_number_invariants_witness :
    hunkC4.lines.filterMap (fun dl => dl.oldLineNumber) =
      List.range' hunkC4.oldStart
        (hunkC4.lines.filterMap (fun dl => dl.oldLineNumber)).length ∧
    hunkC4.lines.filterMap (fun dl => dl.newLineNumber) =
      List.range' hunkC4.newStart
        (hunkC4.lines.filterMap (fun dl => dl.newLineNumber)).length :=
  (parse_line_number_invariants
    (str "diff --git a/f.ts b/f.ts\n@@ -3,3 +5,3 @@\n ctx\n-del\n+add")
    ⟨[fileC4]⟩ parseDiff_rawC4 fileC4 (by simp) hunkC4 (by simp [fileC4])).2

-- ============================================================================
-- C3: malformed-input behaviour of the parser
-- ============================================================================

theorem ne_cons_of_head {c d : Char} (cs ds : List Char) (h : c ≠ d) :
    c :: cs ≠ d :: ds := by
  intro he
  injection he with h1 _
  exact h h1

theorem not_prefix_of_head_ne {c d : Char} {cs l : List Char} (h : c ≠ d) :
    ¬ (c :: cs) <+: (d :: l) := fun hp => h (List.cons_prefix_cons.mp hp).1

theorem parseFileBody_at_bad_hunk (bad : List Char) (rest : List (List Char))
    (hat : str "@@" <+: bad) (hbad : parseHunkHeader bad = none)
    (st : DiffFileStatus) (op : Option (List Char)) (bin : Bool) :
    parseFileBody (bad :: rest) st op bin =
      .error (str "Invalid hunk header: " ++ bad) := by
  obtain ⟨u, hu⟩ := hat
  subst hu
  have hfull : parseHunkFull ('@' :: '@' :: u) rest =
      .error (str "Invalid hunk header: " ++ ('@' :: '@' :: u)) := by
    unfold parseHunkFull
    rw [show ('@' :: '@' :: u) = str "@@" ++ u from rfl, hbad]
  rw [show str "@@" ++ u = '@' :: '@' :: u from rfl] at hbad ⊢
  rw [parseFileBody,
      if_neg (by
        push_neg
        exact ⟨by simp, not_prefix_of_head_ne (by decide)⟩),
      if_neg (by exact not_prefix_of_head_ne (by decide)),
      if_neg (by exact not_prefix_of_head_ne (by decide)),
      if_neg (by exact not_prefix_of_head_ne (by decide)),
      if_neg (by exact not_prefix_of_head_ne (by decide)),
      if_neg (by exact not_prefix_of_head_ne (by decide)),
      if_neg (by
        push_neg
        exact ⟨not_prefix_of_head_ne (by decide), ne_cons_of_head _ _ (by decide)⟩),
      if_pos (by exact ⟨u, rfl⟩),
      hfull]

theorem parseFileBody_benign_then_bad (benign : List (List Char))
    (bad : List Char) (rest : List (List Char))
    (hben : ∀ b ∈ benign, b ≠ [] ∧ ¬ str "diff --git " <+: b ∧
      ¬ str "Binary files " <+: b ∧ b ≠ str "GIT binary patch" ∧ ¬ str "@@" <+: b)
    (hat : str "@@" <+: bad) (hbad : parseHunkHeader bad = none) :
    ∀ (st : DiffFileStatus) (op : Option (List Char)) (bin : Bool),
      parseFileBody (benign ++ bad :: rest) st op bin =
        .error (str "Invalid hunk header: " ++ bad) := by
  induction benign with
  | nil =>
    intro st op bin
    exact parseFileBody_at_bad_hunk bad rest hat hbad st op bin
  | cons b bs ih =>
    intro st op bin
    have hb := hben b (by simp)
    have ih2 := ih (fun x hx => hben x (by simp [hx]))
    rw [List.cons_append, parseFileBody,
        if_neg (by push_neg; exact ⟨hb.1, hb.2.1⟩)]
    by_cases h2 : str "new file mode" <+: b
    · rw [if_pos h2]; exact ih2 _ _ _
    rw [if_neg h2]
    by_cases h3 : str "deleted file mode" <+: b
    · rw [if_pos h3]; exact ih2 _ _ _
    rw [if_neg h3]
    by_cases h4 : str "rename from " <+: b
    · rw [if_pos h4]; exact ih2 _ _ _
    rw [if_neg h4]
    by_cases h5 : str "rename to " <+: b
    · rw [if_pos h5]; exact ih2 _ _ _
    rw [if_neg h5]
    by_cases h6 : str "similarity index " <+: b
    · rw [if_pos h6]; exact ih2 _ _ _
    rw [if_neg h6,
        if_neg (by push_neg; exact ⟨hb.2.2.1, hb.2.2.2.1⟩),
        if_neg hb.2.2.2.2]
    exact ih2 _ _ _

/-- C3 (amended): a hunk-header line that fails the `@@ -a[,b] +c[,d] @@`
pattern, reached in file-header position after any run of benign header
lines, is fatal: parsing raises `Invalid hunk header`.  A `diff --git`
line whose path the primary regex cannot parse is NOT fatal: the parser
never raises there; it falls back to a best-guess file record (manual
split, then the raw remainder as `path`). -/
theorem parse_malformed_input
    (gitline bad : List Char) (benign rest : List (List Char))
    (hgit : str "diff --git " <+: gitline)
    (hben : ∀ b ∈ benign, b ≠ [] ∧ ¬ str "diff --git " <+: b ∧
      ¬ str "Binary files " <+: b ∧ b ≠ str "GIT binary patch" ∧ ¬ str "@@" <+: b)
    (hat : str "@@" <+: bad) (hbad : parseHunkHeader bad = none) :
    parseDiffLoop (gitline :: (benign ++ bad :: rest)) =
      .error (str "Invalid hunk header: " ++ bad) ∧
    ∃ f : DiffFile, parseDiffLoop [gitline] = .ok [f] ∧
      f.path = (parseGitDiffLine gitline).1 ∧ f.hunks = [] ∧ f.isBinary = false := by
  constructor
  · have hfb := parseFileBody_benign_then_bad benign bad rest hben hat hbad
      .modified none false
    have hpf : parseFile gitline (benign ++ bad :: rest) =
        .error (str "Invalid hunk header: " ++ bad) := by
      unfold parseFile
      rw [hfb]
    rw [parseDiffLoop, if_pos hgit, hpf]
  · have hfb : parseFileBody [] .modified none false =
        .ok (.modified, none, false, [], []) := by
      rw [parseFileBody]
    rw [parseDiffLoop, if_pos hgit]
    unfold parseFile
    rw [hfb]
    dsimp only
    rw [parseDiffLoop]
    dsimp only
    exact ⟨_, rfl, rfl, rfl, rfl⟩

/-- C3 counterexample: `diff --git garbage` has a path the primary regex and
the manual split both fail on, yet `parseDiff` succeeds with the raw
remainder `garbage` as the path instead of raising. -/
theorem parse_git_line_no_raise_counterexample :
    parseDiff (str "diff --git garbage") =
      .ok ⟨[{ path := str "garbage", oldPath := none, status := .modified,
              hunks := [], isBinary := false }]⟩ := by
  have hsp : splitLines (str "diff --git garbage") = [str "diff --git garbage"] := by
    decide
  have hfb : parseFileBody [] .modified none false = .ok (.modified, none, false, [], []) := by
    rw [parseFileBody]
  have hf : parseFile (str "diff --git garbage") [] =
      .ok ({ path := str "garbage", oldPath := none, status := .modified,
             hunks := [], isBinary := false }, []) := by
    unfold parseFile
    rw [hfb]
    decide
  rw [parseDiff, if_neg (by decide), hsp, parseDiffLoop, if_pos (by decide), hf]
  dsimp only
  rw [parseDiffLoop]

/-- C3 witness: the theorem applied at a concrete malformed hunk header
after an `index` header line. -/
theorem parse_malformed_input_witness :
    parseDiffLoop [str "diff --git a/f.ts b/f.ts", str "index 123..456 100644",
        str "@@ bad @@"] =
      .error (str "Invalid hunk header: " ++ str "@@ bad @@") ∧
    ∃ f, parseDiffLoop [str "diff --git a/f.ts b/f.ts"] = .ok [f] := by
  obtain ⟨hfst, f, hf, _⟩ := parse_malformed_input (str "diff --git a/f.ts b/f.ts")
    (str "@@ bad @@") [str "index 123..456 100644"] []
    (by decide) (by decide) (by decide) (by decide)
  exact ⟨hfst, f, hf⟩

-- ============================================================================
-- C5: flow-detection validation
-- ============================================================================

theorem clampPriority_bounds (p : ℚ) : 1 ≤ clampPriority p ∧ clampPriority p ≤ 10 := by
  unfold clampPriority
  exact ⟨le_max_left 1 _, max_le (by norm_num) (min_le_left 10 _)⟩

theorem validateFlows_assigned (all : List (List Char)) (flows : List RawFlow) :
    ∀ assigned,
      (validateFlows all flows assigned).2 =
        assigned ++ (validateFlows all flows assigned).1.flatMap (fun fl => fl.files) := by
  induction flows with
  | nil => intro assigned; simp [validateFlows]
  | cons f rest ih =>
    intro assigned
    simp only [validateFlows]
    by_cases h :
        (f.files.filter (fun p => decide (p ∈ all) && !decide (p ∈ assigned))).length > 0
    · rw [if_pos h]
      simp only [List.flatMap_cons]
      rw [ih]
      simp [List.append_assoc]
    · rw [if_neg h]
      have hval : f.files.filter (fun p => decide (p ∈ all) && !decide (p ∈ assigned)) = [] := by
        rcases hq : f.files.filter (fun p => decide (p ∈ all) && !decide (p ∈ assigned)) with _ | _
        · rfl
        · rw [hq] at h; simp at h
      rw [hval] at *
      rw [ih]
      simp

theorem validateFlows_mem (all : List (List Char)) (flows : List RawFlow) :
    ∀ assigned, ∀ fl ∈ (validateFlows all flows assigned).1,
      fl.files ≠ [] ∧ (∀ p ∈ fl.files, p ∈ all ∧ p ∉ assigned) ∧
      1 ≤ fl.priority ∧ fl.priority ≤ 10 := by
  induction flows with
  | nil => intro assigned fl hfl; simp [validateFlows] at hfl
  | cons f rest ih =>
    intro assigned fl hfl
    simp only [validateFlows] at hfl
    by_cases h :
        (f.files.filter (fun p => decide (p ∈ all) && !decide (p ∈ assigned))).length > 0
    · rw [if_pos h] at hfl
      cases hfl with
      | head =>
        refine ⟨?_, ?_, clampPriority_bounds f.priority⟩
        · intro hnil
          dsimp only at hnil
          rw [hnil] at h
          simp at h
        · intro p hp
          dsimp only at hp
          have hm := List.mem_filter.mp hp
          have hc := hm.2
          simp only [Bool.and_eq_true, Bool.not_eq_true', decide_eq_true_eq,
            decide_eq_false_iff_not] at hc
          exact hc
      | tail _ hmem =>
        have hres := ih _ fl hmem
        exact ⟨hres.1,
               fun p hp => ⟨(hres.2.1 p hp).1,
                 fun hin => (hres.2.1 p hp).2 (List.mem_append_left _ hin)⟩,
               hres.2.2⟩
    · rw [if_neg h] at hfl
      have hres := ih _ fl hfl
      exact ⟨hres.1,
             fun p hp => ⟨(hres.2.1 p hp).1,
               fun hin => (hres.2.1 p hp).2 (List.mem_append_left _ hin)⟩,
             hres.2.2⟩

theorem validateFlows_pairwise (all : List (List Char)) (flows : List RawFlow) :
    ∀ assigned,
      ((validateFlows all flows assigned).1).Pairwise
        (fun f g => ∀ p ∈ f.files, p ∉ g.files) := by
  induction flows with
  | nil => intro assigned; simp [validateFlows]
  | cons f rest ih =>
    intro assigned
    simp only [validateFlows]
    by_cases h :
        (f.files.filter (fun p => decide (p ∈ all) && !decide (p ∈ assigned))).length > 0
    · rw [if_pos h]
      refine List.Pairwise.cons ?_ (ih _)
      intro g hg p hp hpg
      have hmem := validateFlows_mem all rest _ g hg
      exact (hmem.2.1 p hpg).2 (List.mem_append_right _ hp)
    · rw [if_neg h]
      exact ih _

theorem validateFlows_files_nodup (all : List (List Char)) (flows : List RawFlow)
    (hres : ∀ fl ∈ flows, fl.files.Nodup) :
    ∀ assigned, ∀ fl ∈ (validateFlows all flows assigned).1, fl.files.Nodup := by
  induction flows with
  | nil => intro assigned fl hfl; simp [validateFlows] at hfl
  | cons f rest ih =>
    intro assigned fl hfl
    simp only [validateFlows] at hfl
    have ih2 := ih (fun x hx => hres x (by simp [hx]))
    by_cases h :
        (f.files.filter (fun p => decide (p ∈ all) && !decide (p ∈ assigned))).length > 0
    · rw [if_pos h] at hfl
      cases hfl with
      | head => exact (hres f (by simp)).filter _
      | tail _ hmem => exact ih2 _ fl hmem
    · rw [if_neg h] at hfl
      exact ih2 _ fl hfl

/-- C5 (amended): after validation, every surviving flow is nonempty and
contains only candidate tier-1/2 paths, no path appears in two different
flows, flows are sorted ascending by their priority clamped to 1–10, and
the candidate set is exactly covered: a path is a candidate iff it is in
some flow or uncategorized.  Provided the candidate paths are distinct
and no single response flow lists the same path twice, the concatenation
of all flows' files with the uncategorized list is a permutation of the
candidate list (without that proviso a duplicate inside one response flow
survives, see the counterexample). -/
theorem detectFlows_validation (classified : List ClassifiedFile) (response : List RawFlow) :
    (∀ fl ∈ (detectFlowsValidate classified response).flows, fl.files ≠ []) ∧
    (∀ fl ∈ (detectFlowsValidate classified response).flows, ∀ p ∈ fl.files,
      p ∈ flowCandidatePaths classified) ∧
    ((detectFlowsValidate classified response).flows).Pairwise
      (fun f g => ∀ p ∈ f.files, p ∉ g.files) ∧
    ((detectFlowsValidate classified response).flows).Pairwise
      (fun a b => a.priority ≤ b.priority) ∧
    (∀ fl ∈ (detectFlowsValidate classified response).flows,
      1 ≤ fl.priority ∧ fl.priority ≤ 10) ∧
    (∀ p, p ∈ flowCandidatePaths classified ↔
      (p ∈ (detectFlowsValidate classified response).uncategorized ∨
       ∃ fl ∈ (detectFlowsValidate classified response).flows, p ∈ fl.files)) ∧
    ((flowCandidatePaths classified).Nodup →
      (∀ fl ∈ response, fl.files.Nodup) →
      ((((detectFlowsValidate classified response).flows).flatMap (fun fl => fl.files)) ++
        (detectFlowsValidate classified response).uncategorized).Perm
        (flowCandidatePaths classified)) := by
  have hR : detectFlowsValidate classified response =
      ⟨((validateFlows (flowCandidatePaths classified) response []).1).mergeSort
          (fun a b => decide (a.priority ≤ b.priority)),
        ((classified.filter (fun cf => decide (cf.tier ≤ 2))).filter
          (fun cf =>
            !decide (cf.file.path ∈
              (validateFlows (flowCandidatePaths classified) response []).2))).map
          (fun cf => cf.file.path)⟩ := rfl
  set all := flowCandidatePaths classified with hall
  set v := validateFlows all response [] with hv
  have hmemflows : ∀ fl, fl ∈ (detectFlowsValidate classified response).flows ↔ fl ∈ v.1 := by
    intro fl
    rw [hR]
    exact List.mem_mergeSort
  have hperm : ((detectFlowsValidate classified response).flows).Perm v.1 := by
    rw [hR]
    exact List.mergeSort_perm v.1 _
  have hflat : v.2 = v.1.flatMap (fun fl => fl.files) := by
    rw [hv]
    simpa using validateFlows_assigned all response []
  have hmem := validateFlows_mem all response []
  have huncmem : ∀ p, p ∈ (detectFlowsValidate classified response).uncategorized ↔
      (p ∈ all ∧ p ∉ v.2) := by
    intro p
    rw [hR]
    constructor
    · intro hp
      obtain ⟨cf, hcf2, hpath⟩ := List.mem_map.mp hp
      have hcf3 := List.mem_filter.mp hcf2
      refine ⟨?_, ?_⟩
      · rw [hall]
        unfold flowCandidatePaths
        exact List.mem_map.mpr ⟨cf, hcf3.1, hpath⟩
      · have hnn := hcf3.2
        simp only [Bool.not_eq_true', decide_eq_false_iff_not] at hnn
        rw [← hpath]
        exact hnn
    · rintro ⟨hpcand, hnotin⟩
      rw [hall] at hpcand
      unfold flowCandidatePaths at hpcand
      obtain ⟨cf, hcf, hpath⟩ := List.mem_map.mp hpcand
      refine List.mem_map.mpr ⟨cf, ?_, hpath⟩
      refine List.mem_filter.mpr ⟨hcf, ?_⟩
      simp only [Bool.not_eq_true', decide_eq_false_iff_not]
      rw [hpath]
      exact hnotin
  refine ⟨?_, ?_, ?_, ?_, ?_, ?_, ?_⟩
  · intro fl hfl
    exact (hmem fl ((hmemflows fl).mp hfl)).1
  · intro fl hfl p hp
    exact ((hmem fl ((hmemflows fl).mp hfl)).2.1 p hp).1
  · have hsymm : ∀ {f g : DetectedFlow},
        (∀ p ∈ f.files, p ∉ g.files) → (∀ p ∈ g.files, p ∉ f.files) :=
      fun hfg p hpg hpf => hfg p hpf hpg
    exact (List.Perm.pairwise_iff hsymm hperm).mpr (validateFlows_pairwise all response [])
  · rw [hR]
    have hs := @List.sorted_mergeSort DetectedFlow
      (fun a b => decide (a.priority ≤ b.priority))
      (fun a b c hab hbc => by
        simp only [decide_eq_true_eq] at *
        omega)
      (fun a b => by
        rcases Int.le_total a.priority b.priority with h | h <;> simp [h])
      v.1
    exact hs.imp (fun hab => by simpa using hab)
  · intro fl hfl
    exact (hmem fl ((hmemflows fl).mp hfl)).2.2
  · intro p
    constructor
    · intro hp
      by_cases hin : p ∈ v.2
      · right
        rw [hflat] at hin
        obtain ⟨fl, hfl, hpfl⟩ := List.mem_flatMap.mp hin
        exact ⟨fl, (hmemflows fl).mpr hfl, hpfl⟩
      · left
        exact (huncmem p).mpr ⟨hp, hin⟩
    · intro hp
      cases hp with
      | inl h => exact ((huncmem p).mp h).1
      | inr h =>
        obtain ⟨fl, hfl, hpfl⟩ := h
        exact ((hmem fl ((hmemflows fl).mp hfl)).2.1 p hpfl).1
  · intro hcand hres
    have hnodupflows : ∀ fl ∈ (detectFlowsValidate classified response).flows,
        fl.files.Nodup := fun fl hfl =>
      validateFlows_files_nodup all response hres [] fl ((hmemflows fl).mp hfl)
    have hnodupA : (((detectFlowsValidate classified response).flows).flatMap
        (fun fl => fl.files)).Nodup := by
      rw [List.nodup_flatMap]
      refine ⟨hnodupflows, ?_⟩
      have hpw : ((detectFlowsValidate classified response).flows).Pairwise
          (fun f g => ∀ p ∈ f.files, p ∉ g.files) := by
        have hsymm : ∀ {f g : DetectedFlow},
            (∀ p ∈ f.files, p ∉ g.files) → (∀ p ∈ g.files, p ∉ f.files) :=
          fun hfg p hpg hpf => hfg p hpf hpg
        exact (List.Perm.pairwise_iff hsymm hperm).mpr
          (validateFlows_pairwise all response [])
      exact hpw.imp (fun h => h)
    have hnodupU : ((detectFlowsValidate classified response).uncategorized).Nodup := by
      rw [hR]
      refine List.Nodup.sublist (List.Sublist.map _ (List.filter_sublist _)) ?_
      exact hcand
    have hdisj : ∀ p, p ∈ (((detectFlowsValidate classified response).flows).flatMap
        (fun fl => fl.files)) → p ∉ (detectFlowsValidate classified response).uncategorized := by
      intro p hp hpu
      have h1 : p ∈ v.1.flatMap (fun fl => fl.files) :=
        (List.Perm.flatMap_right _ hperm).mem_iff.mp hp
      have h2 := (huncmem p).mp hpu
      rw [hflat] at h2
      exact h2.2 h1
    have hnodupAll := List.Nodup.append hnodupA hnodupU hdisj
    refine List.perm_of_nodup_nodup_toFinset_eq hnodupAll hcand ?_
    ext p
    simp only [List.mem_toFinset, List.mem_append, List.mem_flatMap]
    constructor
    · intro hp
      cases hp with
      | inl h =>
        obtain ⟨fl, hfl, hpfl⟩ := h
        exact ((hmem fl ((hmemflows fl).mp hfl)).2.1 p hpfl).1
      | inr h => exact ((huncmem p).mp h).1
    · intro hp
      by_cases hin : p ∈ v.2
      · left
        rw [hflat] at hin
        obtain ⟨fl, hfl, hpfl⟩ := List.mem_flatMap.mp hin
        exact ⟨fl, (hmemflows fl).mpr hfl, hpfl⟩
      · right
        exact (huncmem p).mpr ⟨hp, hin⟩

/-- The one-candidate classified list for the C5 counterexample. -/
def cfA : ClassifiedFile := mkCF "a.ts" 1 10

/-- A response flow that lists the same candidate path twice. -/
def rfDup : RawFlow :=
  { name := str "F", description := str "D",
    files := [str "a.ts", str "a.ts"], priority := 1 }

/-- The flow that validation produces from `rfDup`: the duplicate survives. -/
def flDup : DetectedFlow :=
  { name := str "F", description := str "D",
    files := [str "a.ts", str "a.ts"], priority := clampPriority 1 }

/-- C5 counterexample: the exactness clause of the claim ("no file lost or
duplicated") fails as stated — a response flow listing the same candidate
path twice keeps both copies, because the assigned-set is only updated
after the whole filter pass over that flow's file list. -/
theorem detectFlows_duplicate_counterexample :
    ¬ ((((detectFlowsValidate [cfA] [rfDup]).flows).flatMap (fun fl => fl.files)) ++
        (detectFlowsValidate [cfA] [rfDup]).uncategorized).Perm
      (flowCandidatePaths [cfA]) := by
  have h1 : (validateFlows (flowCandidatePaths [cfA]) [rfDup] []).1 = [flDup] := by
    simp only [validateFlows]
    rw [if_pos (by decide)]
    dsimp only
    simp only [flDup, List.cons.injEq, DetectedFlow.mk.injEq]
    exact ⟨⟨rfl, rfl, by decide, rfl⟩, trivial⟩
  have h2 : (validateFlows (flowCandidatePaths [cfA]) [rfDup] []).2 =
      [str "a.ts", str "a.ts"] := by decide
  have hflows : (detectFlowsValidate [cfA] [rfDup]).flows = [flDup] := by
    show ((validateFlows (flowCandidatePaths [cfA]) [rfDup] []).1).mergeSort
        (fun a b => decide (a.priority ≤ b.priority)) = [flDup]
    rw [h1, List.mergeSort_singleton]
  have hunc : (detectFlowsValidate [cfA] [rfDup]).uncategorized = [] := by
    show (([cfA].filter (fun cf => decide (cf.tier ≤ 2))).filter
        (fun cf =>
          !decide (cf.file.path ∈
            (validateFlows (flowCandidatePaths [cfA]) [rfDup] []).2))).map
        (fun cf => cf.file.path) = []
    simp only [h2]
    decide
  rw [hflows, hunc]
  decide

/-- The two-candidate classified list for the C5 witness. -/
def cfB : ClassifiedFile := mkCF "b.ts" 1 20

/-- A well-formed response flow over distinct candidate paths. -/
def rfOk : RawFlow :=
  { name := str "F", description := str "D",
    files := [str "b.ts"], priority := 2 }

/-- C5 witness: the exactness clause applied at a concrete nodup candidate
list and duplicate-free response. -/
theorem detectFlows_validation_witness :
    (flowCandidatePaths [cfA, cfB]).Nodup ∧ (∀ fl ∈ [rfOk], fl.files.Nodup) ∧
    ((((detectFlowsValidate [cfA, cfB] [rfOk]).flows).flatMap (fun fl => fl.files)) ++
      (detectFlowsValidate [cfA, cfB] [rfOk]).uncategorized).Perm
      (flowCandidatePaths [cfA, cfB]) :=
  ⟨by decide, by decide,
   (detectFlows_validation [cfA, cfB] [rfOk]).2.2.2.2.2.2 (by decide) (by decide)⟩

-- ============================================================================
-- C6: two-pass result merging
-- ============================================================================

/-- Spec-side first-occurrence dedup over the program's joined-string key:
keep each risk whose key has not occurred among the risks kept so far. -/
def dedupByKeyFirst (l : List Risk) : List Risk :=
  l.foldl (fun acc r => if riskKey r ∈ acc.map riskKey then acc else acc ++ [r]) []

/-- The key exactly as the claim words it — the PAIR
`(category, first 50 characters of description)`.  Written from the
claim, not the source, to be compared with the program's joined-string
key `riskKey`; the two disagree when a category contains a colon. -/
def riskKeyPair (r : Risk) : List Char × List Char := (r.category, r.description.take 50)

/-- First-occurrence dedup by the claim's pair key, written from the
claim's words (used only to refute the claim as stated). -/
def dedupByPairFirst (l : List Risk) : List Risk :=
  l.foldl (fun acc r => if riskKeyPair r ∈ acc.map riskKeyPair then acc else acc ++ [r]) []

theorem dedupRisksSeen_eq_foldl (l : List Risk) :
    ∀ (seen : List (List Char)) (acc : List Risk),
      (∀ k, k ∈ seen ↔ k ∈ acc.map riskKey) →
      acc ++ dedupRisksSeen l seen =
        l.foldl (fun acc r => if riskKey r ∈ acc.map riskKey then acc else acc ++ [r]) acc := by
  induction l with
  | nil => intro seen acc _; simp [dedupRisksSeen]
  | cons r rest ih =>
    intro seen acc hinv
    rw [dedupRisksSeen, List.foldl_cons]
    by_cases hk : riskKey r ∈ seen
    · rw [if_pos hk, if_pos ((hinv _).mp hk)]
      exact ih seen acc hinv
    · rw [if_neg hk, if_neg (fun hmem => hk ((hinv _).mpr hmem))]
      have hstep := ih (riskKey r :: seen) (acc ++ [r]) (fun k => by
        simp only [List.mem_cons, List.map_append, List.map_cons, List.map_nil,
          List.mem_append, hinv k]
        constructor
        · rintro (h | h)
          · right; simp [h]
          · left; exact h
        · rintro (h | h)
          · right; exact h
          · left; simpa using h)
      rw [← hstep]
      simp

theorem dedupRisksSeen_eq_spec (l : List Risk) :
    dedupRisksSeen l [] = dedupByKeyFirst l := by
  have := dedupRisksSeen_eq_foldl l [] [] (by simp)
  simpa [dedupByKeyFirst] using this

/-- C6 (amended): the merged risk list is the concatenation of the
overview's initial risks with the deep-dive risks, deduplicated keeping
the first occurrence by the joined string key
`category ++ ":" ++ first 50 chars of description` — not by the pair
`(category, first 50 chars)`, which differs when a category contains a
colon — and then sorted by severity descending (stated here as: the
result is a permutation of the spec-side dedup that is pairwise sorted
by descending severity); `overallRisk` is the severity of the first risk
after sorting
(`low` when the list is empty); and the summary is the fixed
"No significant risks identified in detailed review." when the merged
list is empty, a critical-count callout prefixed to the deep-dive summary
when critical risks exist, a high-count callout when high (but no
critical) risks exist, and the deep-dive summary verbatim otherwise. -/
theorem mergeResults_risk_merging (overview : OverviewResult) (deepDive : RiskAssessment) :
    ((mergeResults overview deepDive).2.risks).Perm
      (dedupByKeyFirst (overview.initialRisks ++ deepDive.risks)) ∧
    ((mergeResults overview deepDive).2.risks).Pairwise
      (fun a b => severityOrder a.severity ≤ severityOrder b.severity) ∧
    ((mergeResults overview deepDive).2.overallRisk =
      match (mergeResults overview deepDive).2.risks.head? with
      | some r => r.severity
      | none => Severity.low) ∧
    ((mergeResults overview deepDive).2.confidence = deepDive.confidence) ∧
    ((mergeResults overview deepDive).2.risks = [] →
      (mergeResults overview deepDive).2.summary =
        str "No significant risks identified in detailed review.") ∧
    ((mergeResults overview deepDive).2.risks ≠ [] →
      0 < ((mergeResults overview deepDive).2.risks.filter
        (fun r => decide (r.severity = .critical))).length →
      (mergeResults overview deepDive).2.summary =
        natToChars ((mergeResults overview deepDive).2.risks.filter
          (fun r => decide (r.severity = .critical))).length ++
          str " critical risk(s) found. " ++ deepDive.summary) ∧
    ((mergeResults overview deepDive).2.risks ≠ [] →
      ((mergeResults overview deepDive).2.risks.filter
        (fun r => decide (r.severity = .critical))).length = 0 →
      0 < ((mergeResults overview deepDive).2.risks.filter
        (fun r => decide (r.severity = .high))).length →
      (mergeResults overview deepDive).2.summary =
        natToChars ((mergeResults overview deepDive).2.risks.filter
          (fun r => decide (r.severity = .high))).length ++
          str " high-severity risk(s) found. " ++ deepDive.summary) ∧
    ((mergeResults overview deepDive).2.risks ≠ [] →
      ((mergeResults overview deepDive).2.risks.filter
        (fun r => decide (r.severity = .critical))).length = 0 →
      ((mergeResults overview deepDive).2.risks.filter
        (fun r => decide (r.severity = .high))).length = 0 →
      (mergeResults overview deepDive).2.summary = deepDive.summary) := by
  have hrisks : (mergeResults overview deepDive).2.risks =
      (dedupRisksSeen (overview.initialRisks ++ deepDive.risks) []).mergeSort
        (fun a b => decide (severityOrder a.severity ≤ severityOrder b.severity)) := rfl
  have hs : (mergeResults overview deepDive).2.summary =
      (if (mergeResults overview deepDive).2.risks = [] then
        str "No significant risks identified in detailed review."
      else if ((mergeResults overview deepDive).2.risks.filter
          (fun r => decide (r.severity = .critical))).length > 0 then
        natToChars ((mergeResults overview deepDive).2.risks.filter
          (fun r => decide (r.severity = .critical))).length ++
          str " critical risk(s) found. " ++ deepDive.summary
      else if ((mergeResults overview deepDive).2.risks.filter
          (fun r => decide (r.severity = .high))).length > 0 then
        natToChars ((mergeResults overview deepDive).2.risks.filter
          (fun r => decide (r.severity = .high))).length ++
          str " high-severity risk(s) found. " ++ deepDive.summary
      else deepDive.summary) := rfl
  refine ⟨?_, ?_, rfl, rfl, ?_, ?_, ?_, ?_⟩
  · rw [hrisks, ← dedupRisksSeen_eq_spec]
    exact List.mergeSort_perm _ _
  · rw [hrisks]
    have hsorted := @List.sorted_mergeSort Risk
      (fun a b => decide (severityOrder a.severity ≤ severityOrder b.severity))
      (fun a b c hab hbc => by
        simp only [decide_eq_true_eq] at *
        omega)
      (fun a b => by
        rcases Nat.le_total (severityOrder a.severity) (severityOrder b.severity) with h | h <;>
          simp [h])
      (dedupRisksSeen (overview.initialRisks ++ deepDive.risks) [])
    exact hsorted.imp (fun hab => by simpa using hab)
  · intro hempty
    rw [hs, if_pos hempty]
  · intro hne hcrit
    rw [hs, if_neg hne, if_pos hcrit]
  · intro hne hcrit hhigh
    rw [hs, if_neg hne, if_neg (by omega), if_pos hhigh]
  · intro hne hcrit hhigh
    rw [hs, if_neg hne, if_neg (by omega), if_neg (by omega)]

/-- The C6 example inputs: the overview flags nothing and reports no
initial risks; the deep dive reports one medium risk (for the witness) or
none (for the counterexample). -/
def overviewC6 : OverviewResult :=
  { summary := str "Adds a throttle.", flaggedFiles := [], initialRisks := [],
    overviewIntent := {} }

/-- A deep-dive result carrying one medium-severity risk. -/
def deepDiveC6med : RiskAssessment :=
  { overallRisk := .medium, summary := str "One medium issue.",
    risks := [{ severity := .medium, category := str "performance",
                description := str "Unbounded loop over files.",
                evidence := str "loop in loader" }],
    confidence := .high }

/-- A deep-dive result with no risks at all. -/
def deepDiveC6none : RiskAssessment :=
  { overallRisk := .low, summary := str "All good.", risks := [], confidence := .high }

/-- The colliding-key inputs: the overview reports a risk with category
`a:b` and description `c`; the deep dive reports a risk with category
`a` and description `b:c`.  Their pair keys differ, but the program's
joined string key is `a:b:c` for both. -/
def overviewColl : OverviewResult :=
  { summary := str "Mixed change.", flaggedFiles := [],
    initialRisks := [{ severity := .medium, category := str "a:b",
                       description := str "c", evidence := str "e1" }],
    overviewIntent := {} }

/-- The deep-dive side of the colliding-key example. -/
def deepDiveColl : RiskAssessment :=
  { overallRisk := .medium, summary := str "One issue.",
    risks := [{ severity := .medium, category := str "a",
                description := str "b:c", evidence := str "e2" }],
    confidence := .high }

/-- C6 counterexample: two clauses of the claim fail as stated.  (1) The
dedup key is not the pair `(category, first 50 chars of description)`:
with a colon inside a category, two risks with distinct pair keys share
the program's joined string key `a:b:c`, so the merge drops the second
risk while the pair-key dedup keeps both.  (2) With no risks on either
side there are no critical/high risks, yet the merged summary is the
fixed "No significant risks identified in detailed review." string, not
the deep-dive summary verbatim. -/
theorem mergeResults_claim_counterexample :
    ((mergeResults overviewColl deepDiveColl).2.risks =
        [{ severity := .medium, category := str "a:b", description := str "c",
           evidence := str "e1" }] ∧
      ¬ ((mergeResults overviewColl deepDiveColl).2.risks).Perm
        (dedupByPairFirst (overviewColl.initialRisks ++ deepDiveColl.risks))) ∧
    ((mergeResults overviewC6 deepDiveC6none).2.risks = [] ∧
      (mergeResults overviewC6 deepDiveC6none).2.summary ≠ deepDiveC6none.summary) := by
  have hcoll : (mergeResults overviewColl deepDiveColl).2.risks =
      [{ severity := .medium, category := str "a:b", description := str "c",
         evidence := str "e1" }] := by
    show (dedupRisksSeen (overviewColl.initialRisks ++ deepDiveColl.risks) []).mergeSort
      (fun a b => decide (severityOrder a.severity ≤ severityOrder b.severity)) = _
    rw [show dedupRisksSeen (overviewColl.initialRisks ++ deepDiveColl.risks) [] =
        [{ severity := .medium, category := str "a:b", description := str "c",
           evidence := str "e1" }] from by decide]
    rw [List.mergeSort_singleton]
  have hr : (mergeResults overviewC6 deepDiveC6none).2.risks = [] := by
    show (dedupRisksSeen (overviewC6.initialRisks ++ deepDiveC6none.risks) []).mergeSort
      (fun a b => decide (severityOrder a.severity ≤ severityOrder b.severity)) = []
    rw [show dedupRisksSeen (overviewC6.initialRisks ++ deepDiveC6none.risks) [] = []
        from rfl]
    exact List.mergeSort_nil
  refine ⟨⟨hcoll, ?_⟩, hr, ?_⟩
  · rw [hcoll]
    decide
  · have hs : (mergeResults overviewC6 deepDiveC6none).2.summary =
        (if (mergeResults overviewC6 deepDiveC6none).2.risks = [] then
          str "No significant risks identified in detailed review."
        else if ((mergeResults overviewC6 deepDiveC6none).2.risks.filter
            (fun r => decide (r.severity = .critical))).length > 0 then
          natToChars ((mergeResults overviewC6 deepDiveC6none).2.risks.filter
            (fun r => decide (r.severity = .critical))).length ++
            str " critical risk(s) found. " ++ deepDiveC6none.summary
        else if ((mergeResults overviewC6 deepDiveC6none).2.risks.filter
            (fun r => decide (r.severity = .high))).length > 0 then
          natToChars ((mergeResults overviewC6 deepDiveC6none).2.risks.filter
            (fun r => decide (r.severity = .high))).length ++
            str " high-severity risk(s) found. " ++ deepDiveC6none.summary
        else deepDiveC6none.summary) := rfl
    rw [hs, if_pos hr]
    decide

/-- C6 witness: with exactly one medium risk the merged summary is the
deep-dive summary verbatim (the pass-through conjunct applied at a
concrete input), and the risk list is that single risk. -/
theorem mergeResults_risk_merging_witness :
    (mergeResults overviewC6 deepDiveC6med).2.risks ≠ [] ∧
    (mergeResults overviewC6 deepDiveC6med).2.summary = deepDiveC6med.summary := by
  have hr : (mergeResults overviewC6 deepDiveC6med).2.risks = deepDiveC6med.risks := by
    show (dedupRisksSeen (overviewC6.initialRisks ++ deepDiveC6med.risks) []).mergeSort
      (fun a b => decide (severityOrder a.severity ≤ severityOrder b.severity)) =
      deepDiveC6med.risks
    rw [show dedupRisksSeen (overviewC6.initialRisks ++ deepDiveC6med.risks) [] =
        [{ severity := .medium, category := str "performance",
           description := str "Unbounded loop over files.",
           evidence := str "loop in loader" }] from by decide]
    rw [List.mergeSort_singleton]
    rfl
  refine ⟨by rw [hr]; decide, ?_⟩
  exact (mergeResults_risk_merging overviewC6 deepDiveC6med).2.2.2.2.2.2.2
    (by rw [hr]; decide) (by rw [hr]; decide) (by rw [hr]; decide)

/-- C10 witness: the theorem applied at the concrete junk line `zzz42`. -/
theorem parseHunkLines_unknown_is_context_witness :
    parseHunkLines [str "zzz42"] 5 7 =
      ([⟨.context, str "zz42", some 5, some 7⟩], []) := by
  have h := parseHunkLines_unknown_is_context 'z' (str "zz42") [] 5 7
    (by decide) (by decide) (by decide) (by decide)
    (by decide) (by decide) (by decide) (by decide) (by decide) (by decide) (by decide)
  rw [show (str "zzz42") = 'z' :: str "zz42" from rfl]
  rw [h]
  rfl

end DL

